import Mathlib

/-!
Verification of the Minesweeper board engine (`src/sweeper.py`).

The engine is embedded shallowly:

* Python `int` becomes `Int`; board dimensions and the mine count are `Nat`
  (the spec's data model fixes them as positive integers).
* A coordinate (Python `tuple[int, int]`) is `Point := Int × Int`.
* Python `set` fields become duplicate-free `List Point` values manipulated
  through `setAdd` (`set.add`: appends only an absent element) and
  `setDiscard` (`set.discard`: removes every occurrence); only membership,
  size and iteration are ever used, so this models the unordered Python set
  faithfully up to iteration order.
* The opened-cell grid (`list[list[bool]]`) is `List (List Bool)`, and Python
  list indexing (negative indices wrap, out-of-range raises `IndexError`) is
  modelled by `pyGet` / `pySet` returning `Option`.
* An operation that can raise returns `Game × Option PyErr`: the returned game
  carries all mutations performed before the exception, exactly as the Python
  object does when an exception propagates out of a method.
* `random.Random.randint` is abstracted by an oracle `o : Nat → Nat`: the k-th
  call to `randint(a, b)` (with `a ≤ b`) returns `a + o k % (b - a + 1)`.
  Every theorem below quantifies over the oracle, so it covers the actual
  Mersenne-Twister stream of any seed.
* The `while` loop of `Game.open` is executed with explicit fuel
  (`PyErr.fuelOut` is a modelling artifact that a sufficiently large fuel
  never produces; the Python loop always terminates).
* `DEBUG_BOARD` is the constant `False` in the source, so the debug branch of
  `generate_board` is dead code and is not modelled.
* Python `set` iteration order is unspecified; where the source iterates over
  a set (`is_won`, `_flag_all_mines`) the model iterates in a fixed order
  (row-major board order, insertion order of the mine list).  All theorems
  below are stated so
  that their truth does not depend on this choice of order.
-/

namespace Sweeper

/-- The four values of `GameState` in the source. -/
inductive GameState where
  | idle
  | playing
  | won
  | lost
deriving DecidableEq, Repr

/-- Python exceptions that the engine can raise. `fuelOut` is a modelling
artifact of the fuelled `open` loop (see module docstring). -/
inductive PyErr where
  | indexError
  | valueError
  | assertionError
  | fuelOut
deriving DecidableEq, Repr

/-- A board coordinate, Python `tuple[int, int]`. -/
abbrev Point := Int × Int

/-- The effective index of a Python list access: negative indices wrap once
by the length. -/
def pyIdx (len : Nat) (i : Int) : Int :=
  if i < 0 then i + len else i

/-- Python list read `l[i]`: out of range (after the wrap) raises
`IndexError` (`none`). -/
def pyGet {α : Type} (l : List α) (i : Int) : Option α :=
  if 0 ≤ pyIdx l.length i then l[(pyIdx l.length i).toNat]? else none

/-- Python list item assignment `l[i] = a`, same index semantics as `pyGet`. -/
def pySet {α : Type} (l : List α) (i : Int) (a : α) : Option (List α) :=
  if 0 ≤ pyIdx l.length i ∧ pyIdx l.length i < l.length then
    some (l.set (pyIdx l.length i).toNat a)
  else none

/-- Python `set.add` on the list model of a set: append the element unless it
is already present. -/
def setAdd (l : List Point) (p : Point) : List Point :=
  if p ∈ l then l else l ++ [p]

/-- Python `set.discard` on the list model of a set: remove every occurrence
(at most one, since the lists stay duplicate-free). -/
def setDiscard (l : List Point) (p : Point) : List Point :=
  l.filter fun q => decide (q ≠ p)

/-- The state of `sweeper.Game`.  `size = (width, height)`.  The seeded RNG
object is not part of the state; it is abstracted by the oracle passed to
`generateBoard`. -/
structure Game where
  size : Nat × Nat
  mineCount : Nat
  state : GameState
  minePoints : List Point
  questionedPoints : List Point
  flaggedPoints : List Point
  lastClick : Option Point
  cellOpenedGrid : List (List Bool)
deriving DecidableEq

/-- `Game.__init__`: idle state, empty sets, a `size[1]`-row grid whose rows
have `size[0]` entries, all `False`. -/
def Game.init (size : Nat × Nat) (mineCount : Nat) : Game :=
  { size := size
    mineCount := mineCount
    state := GameState.idle
    minePoints := []
    questionedPoints := []
    flaggedPoints := []
    lastClick := none
    cellOpenedGrid := List.replicate size.2 (List.replicate size.1 false) }

/-- `Game.is_opened`: reads `_cell_opened_grid[point[0]][point[1]]`.
`none` is an `IndexError`. -/
def Game.isOpened (g : Game) (p : Point) : Option Bool :=
  match pyGet g.cellOpenedGrid p.1 with
  | none => none
  | some row => pyGet row p.2

/-- `Game._set_opened`: `_cell_opened_grid[point[0]][point[1]] = True`. -/
def Game.setOpened (g : Game) (p : Point) : Option Game :=
  match pyGet g.cellOpenedGrid p.1 with
  | none => none
  | some row =>
    match pySet row p.2 true with
    | none => none
    | some row2 =>
      match pySet g.cellOpenedGrid p.1 row2 with
      | none => none
      | some grid2 => some { g with cellOpenedGrid := grid2 }

/-- `Game.in_range`. -/
def Game.inRange (g : Game) (p : Point) : Prop :=
  0 ≤ p.1 ∧ p.1 < (g.size.1 : Int) ∧ 0 ≤ p.2 ∧ p.2 < (g.size.2 : Int)

instance (g : Game) (p : Point) : Decidable (g.inRange p) := by
  unfold Game.inRange
  infer_instance

/-- All board coordinates, in the order of the generator expressions of the
source (`x` outer, `y` inner). -/
def Game.boardPoints (g : Game) : List Point :=
  (List.range g.size.1).flatMap fun x =>
    (List.range g.size.2).map fun (y : Nat) => ((x : Int), (y : Int))

/-- The 3×3 block of offsets scanned by `proximity_count`
(`x` outer, `y` inner; the centre is included by the source). -/
def proxOffsets : List (Int × Int) :=
  [(-1, -1), (-1, 0), (-1, 1), (0, -1), (0, 0), (0, 1), (1, -1), (1, 0), (1, 1)]

/-- The eight neighbour offsets built by `Game.open`
(`x_off` outer, `y_off` inner, `(0, 0)` skipped). -/
def neighborOffsets : List (Int × Int) :=
  [(-1, -1), (-1, 0), (-1, 1), (0, -1), (0, 1), (1, -1), (1, 0), (1, 1)]

/-- The eight neighbours of a point, in push order. -/
def neighbors (p : Point) : List Point :=
  neighborOffsets.map fun d => (p.1 + d.1, p.2 + d.2)

/-- `Game.proximity_count`: `-1` on a mine, otherwise the number of in-range
mine cells in the 3×3 block around `p` (the centre contributes nothing since
it is not a mine in that branch). -/
def Game.proximityCount (g : Game) (p : Point) : Int :=
  if p ∈ g.minePoints then -1
  else
    ((proxOffsets.map fun d => (p.1 + d.1, p.2 + d.2)).countP
      fun q => decide (g.inRange q) && decide (q ∈ g.minePoints) : Nat)

/-- `Game.flag`: no-op (with a warning) on an opened point, `IndexError` if
the read raises; otherwise adds to `flagged_points` and discards from
`questioned_points`. -/
def Game.flag (g : Game) (p : Point) : Game × Option PyErr :=
  match g.isOpened p with
  | none => (g, some PyErr.indexError)
  | some true => (g, none)
  | some false =>
    ({ g with
        flaggedPoints := setAdd g.flaggedPoints p
        questionedPoints := setDiscard g.questionedPoints p }, none)

/-- `Game.unflag`: discards the point from both mark sets. -/
def Game.unflag (g : Game) (p : Point) : Game :=
  { g with
      questionedPoints := setDiscard g.questionedPoints p
      flaggedPoints := setDiscard g.flaggedPoints p }

/-- `Game.question`: adds to `questioned_points` (no opened check in the
source), discards from `flagged_points`. -/
def Game.question (g : Game) (p : Point) : Game :=
  { g with
      questionedPoints := setAdd g.questionedPoints p
      flaggedPoints := setDiscard g.flaggedPoints p }

/-- `Game.unquestion`: identical body to `unflag` in the source. -/
def Game.unquestion (g : Game) (p : Point) : Game :=
  { g with
      questionedPoints := setDiscard g.questionedPoints p
      flaggedPoints := setDiscard g.flaggedPoints p }

/-- The board points that are not mines, in board order (the source iterates
an unordered set difference; see the module docstring). -/
def Game.nonMinePoints (g : Game) : List Point :=
  g.boardPoints.filter fun q => decide (q ∉ g.minePoints)

/-- The `for point in non_mine_points` loop of `is_won`: `False` at the first
unopened point, `IndexError` if a read raises. -/
def scanOpened (g : Game) : List Point → Except PyErr Bool
  | [] => Except.ok true
  | p :: ps =>
    match g.isOpened p with
    | none => Except.error PyErr.indexError
    | some false => Except.ok false
    | some true => scanOpened g ps

/-- `Game.is_won`: memoized on terminal states, otherwise checks that every
non-mine point is opened and, on success, sets `state = won`. -/
def Game.isWon (g : Game) : Game × Except PyErr Bool :=
  if g.state = GameState.won then (g, Except.ok true)
  else if g.state = GameState.lost then (g, Except.ok false)
  else
    match scanOpened g g.nonMinePoints with
    | Except.ok true => ({ g with state := GameState.won }, Except.ok true)
    | Except.ok false => (g, Except.ok false)
    | Except.error e => (g, Except.error e)

/-- The `for point in self.mine_points: self.flag(point)` loop of
`_flag_all_mines`; an exception aborts the iteration. -/
def flagFold (g : Game) : List Point → Game × Option PyErr
  | [] => (g, none)
  | m :: ms =>
    match g.flag m with
    | (g1, some e) => (g1, some e)
    | (g1, none) => flagFold g1 ms

/-- `Game._flag_all_mines`. -/
def Game.flagAllMines (g : Game) : Game × Option PyErr :=
  flagFold g g.minePoints

/-- `random.Random.randint(a, b)`: a value in `[a, b]` when `a ≤ b`,
`ValueError` on an empty range. `o k` is the k-th raw draw of the stream. -/
def randint (o : Nat → Nat) (k : Nat) (a b : Int) : Except PyErr Int :=
  if a ≤ b then Except.ok (a + (o k : Int) % (b - a + 1)) else Except.error PyErr.valueError

/-- The mine-placement loop of `generate_board`: `n` times, draw a random
index into the remaining pool, move that point from the pool into the mine
set.  On an exhausted pool `randint(0, -1)` raises `ValueError`, leaving the
mines placed so far. -/
def genLoop (o : Nat → Nat) : Nat → Nat → List Point → List Point →
    List Point × List Point × Option PyErr
  | _, 0, pool, mines => (mines, pool, none)
  | k, n + 1, pool, mines =>
    match randint o k 0 ((pool.length : Int) - 1) with
    | Except.error e => (mines, pool, some e)
    | Except.ok idx =>
      match pool[idx.toNat]? with
      | none => (mines, pool, some PyErr.indexError)
      | some pt => genLoop o (k + 1) n (pool.eraseIdx idx.toNat) (setAdd mines pt)

/-- The initial candidate pool of `generate_board`: the board points not in
`disallowed_points` (`None` disallows nothing). -/
def Game.eligiblePoints (g : Game) (dps : Option (List Point)) : List Point :=
  g.boardPoints.filter fun q =>
    match dps with
    | none => true
    | some l => decide (q ∉ l)

/-- `len(disallowed_points) if disallowed_points else 0` (an empty list and
`None` both give 0). -/
def disallowedLen (dps : Option (List Point)) : Int :=
  match dps with
  | none => 0
  | some l => (l.length : Int)

/-- The tail of `generate_board` after the sampling loop: on a loop
exception the partially filled mine set is kept and the exception
propagates; otherwise the `assert` is checked and, on success,
`state = playing` is set and `last_click` cleared. -/
def Game.finishGenerate (g : Game) (dps : Option (List Point))
    (res : List Point × List Point × Option PyErr) : Game × Option PyErr :=
  match res with
  | (mines, _, some e) => ({ g with minePoints := mines }, some e)
  | (mines, pool, none) =>
    if ((pool.length : Int) + mines.length : Int)
        = (g.size.1 * g.size.2 : Int) - disallowedLen dps then
      ({ g with minePoints := mines, state := GameState.playing, lastClick := none }, none)
    else
      ({ g with minePoints := mines }, some PyErr.assertionError)

/-- `Game.generate_board(disallowed_points)`: resets `mine_points`, samples
`mine_count` points without replacement from the board points not in
`disallowed_points`, asserts the pool arithmetic, then sets
`state = playing` and clears `last_click`.  There is no check of the current
state in the source. -/
def Game.generateBoard (g : Game) (dps : Option (List Point)) (o : Nat → Nat) :
    Game × Option PyErr :=
  g.finishGenerate dps (genLoop o 0 g.mineCount (g.eligiblePoints dps) [])

/-- The `if self.is_won(): self._flag_all_mines()` tail of each loop
iteration of `open`. -/
def winStep (g : Game) : Game × Option PyErr :=
  match g.isWon with
  | (g1, Except.error e) => (g1, some e)
  | (g1, Except.ok true) => g1.flagAllMines
  | (g1, Except.ok false) => (g1, none)

/-- The FIFO flood-fill loop of `Game.open` (`stack.pop(0)` pops the front,
`append` pushes at the back).  A popped point that is already opened is
skipped entirely (including the win check, via `continue`); otherwise the
point is opened when it is neither a mine nor flagged, its eight in-range
neighbours are pushed when additionally its proximity count is zero, and the
win check runs. -/
def openLoop : Nat → Game → List Point → Game × Option PyErr
  | 0, g, _ => (g, some PyErr.fuelOut)
  | _ + 1, g, [] => (g, none)
  | fuel + 1, g, point :: rest =>
    match g.isOpened point with
    | none => (g, some PyErr.indexError)
    | some true => openLoop fuel g rest
    | some false =>
      if point ∈ g.minePoints ∨ point ∈ g.flaggedPoints then
        match winStep g with
        | (g1, some e) => (g1, some e)
        | (g1, none) => openLoop fuel g1 rest
      else
        match g.setOpened point with
        | none => (g, some PyErr.indexError)
        | some g1 =>
          let q2 := if g1.proximityCount point = 0
            then rest ++ (neighbors point).filter fun q => decide (g1.inRange q)
            else rest
          match winStep g1 with
          | (g2, some e) => (g2, some e)
          | (g2, none) => openLoop fuel g2 q2

/-- Total number of grid entries; the fuel bound `9 * cells + 9` dominates
the worst-case number of loop iterations (each iteration pops one point and
pushes at most eight, and pushes happen only when a grid entry flips from
`False` to `True`). -/
def Game.gridCells (g : Game) : Nat :=
  (g.cellOpenedGrid.map List.length).sum

def Game.openFuel (g : Game) : Nat := 9 * g.gridCells + 9

/-- `Game.open` (named `openCell` here because `open` is a Lean keyword):
raises `ValueError` unless playing, records `last_click`, no-ops on an opened
or flagged point, loses on a mine, otherwise runs the flood fill. -/
def Game.openCell (g : Game) (p : Point) : Game × Option PyErr :=
  if g.state = GameState.playing then
    let g1 := { g with lastClick := some p }
    match g1.isOpened p with
    | none => (g1, some PyErr.indexError)
    | some true => (g1, none)
    | some false =>
      if p ∈ g1.flaggedPoints then (g1, none)
      else if p ∈ g1.minePoints then ({ g1 with state := GameState.lost }, none)
      else openLoop g1.openFuel g1 [p]
  else (g, some PyErr.valueError)

/-! ### Derived notions used to state the claims -/

/-- The grid shape established by `Game.__init__` (`size[1]` rows of
`size[0]` entries) and preserved by every operation. -/
def Game.WFGrid (g : Game) : Prop :=
  g.cellOpenedGrid.length = g.size.2 ∧ ∀ row ∈ g.cellOpenedGrid, row.length = g.size.1

instance (g : Game) : Decidable g.WFGrid := by
  unfold Game.WFGrid
  infer_instance

/-- Following the spec's words: the in-bounds neighbours of `p` (8-neighbourhood)
that carry a mine. -/
def specMineNeighbors (g : Game) (p : Point) : List Point :=
  (neighbors p).filter fun q => decide (g.inRange q) && decide (q ∈ g.minePoints)

/-- Every in-bounds coordinate that is not a mine reads as opened. -/
def Game.allNonMineOpened (g : Game) : Prop :=
  ∀ q ∈ g.boardPoints, q ∉ g.minePoints → g.isOpened q = some true

instance (g : Game) : Decidable g.allNonMineOpened := by
  unfold Game.allNonMineOpened
  infer_instance

/-- A point through which the flood fill of `open` expands: read as unopened,
neither a mine nor flagged, and with zero proximity count. -/
def Game.expandable (g : Game) (q : Point) : Prop :=
  g.isOpened q = some false ∧ q ∉ g.minePoints ∧ q ∉ g.flaggedPoints ∧
    g.proximityCount q = 0

/-- One expansion step of the flood fill, relative to the board state at the
start of the `open` call. -/
inductive FloodStep (g : Game) : Point → Point → Prop where
  | mk (q r : Point) : g.expandable q → r ∈ neighbors q → g.inRange r →
      FloodStep g q r

/-- The set of points the flood fill of `open(p)` visits: `p` itself plus
everything reachable by expansion steps. -/
def floodReach (g : Game) (p q : Point) : Prop :=
  Relation.ReflTransGen (FloodStep g) p q

/-- One expansion step of the claimed region, following the claim's words:
the connected region of zero-proximity cells containing `p`, where a flagged
coordinate is not expanded through (nothing is said about already-opened
coordinates). -/
inductive SpecRegionStep (g : Game) : Point → Point → Prop where
  | mk (q r : Point) : g.proximityCount q = 0 → q ∉ g.flaggedPoints →
      r ∈ neighbors q → g.inRange r → SpecRegionStep g q r

/-- The region that claim C1 says `open(p)` opens (zero cells plus border). -/
def specRegion (g : Game) (p q : Point) : Prop :=
  Relation.ReflTransGen (SpecRegionStep g) p q

/-- Board states reachable through the engine's interface.  The constructor
plus every engine operation, restricted to calls that do not raise: a raising
`generate_board` or `open` can leave the object with a partially performed
mutation, and such post-exception states are not treated as reachable (the
`flag` and `is_won` steps are unrestricted because on an exception they
return the state unchanged). -/
inductive Reachable : Game → Prop where
  | init (size : Nat × Nat) (mineCount : Nat) : Reachable (Game.init size mineCount)
  | generate (g : Game) (dps : Option (List Point)) (o : Nat → Nat) :
      Reachable g → (g.generateBoard dps o).2 = none →
      Reachable (g.generateBoard dps o).1
  | openCell (g : Game) (p : Point) :
      Reachable g → (g.openCell p).2 = none → Reachable (g.openCell p).1
  | flag (g : Game) (p : Point) : Reachable g → Reachable (g.flag p).1
  | unflag (g : Game) (p : Point) : Reachable g → Reachable (g.unflag p)
  | question (g : Game) (p : Point) : Reachable g → Reachable (g.question p)
  | unquestion (g : Game) (p : Point) : Reachable g → Reachable (g.unquestion p)
  | isWon (g : Game) : Reachable g → Reachable g.isWon.1

/-! ### Concrete boards used by counterexamples and witnesses

All of these arise from the engine's interface by the call sequences in
their doc comments; the oracle arguments stand for concrete `randint`
outcomes. -/

/-- 2×2 board, one mine at `(0, 0)`: `Game((2, 2), 1)` then
`generate_board(None)` drawing index 0. -/
def genBoard22 : Game := ((Game.init (2, 2) 1).generateBoard none fun _ => 0).1

/-- `genBoard22` after `open((1, 1))`: the cell `(1, 1)` (proximity 1) is
opened, nothing else. -/
def opened22 : Game := (genBoard22.openCell (1, 1)).1

/-- `genBoard22` after `open((0, 0))`: a mine was clicked, state is `lost`. -/
def lost22 : Game := (genBoard22.openCell (0, 0)).1

/-- `opened22` after a second `generate_board(None)` drawing index 3: the
mine moves to `(1, 1)`, which is already opened; state is `playing` again. -/
def regen22 : Game := (opened22.generateBoard none fun _ => 3).1

/-- `regen22` after opening `(0, 0)`, `(0, 1)` and `(1, 0)`: every non-mine
cell is opened, so the game is won. -/
def won22 : Game :=
  ((((regen22.openCell (0, 0)).1.openCell (0, 1)).1.openCell (1, 0)).1 : Game)

/-- 3×3 board with zero mines: `Game((3, 3), 0)` then `generate_board(None)`. -/
def zero33 : Game := ((Game.init (3, 3) 0).generateBoard none fun _ => 0).1

/-- `zero33` with `(0, 0)` and `(2, 2)` flagged. -/
def flagged33 : Game := ((zero33.flag (0, 0)).1.flag (2, 2)).1

/-- `flagged33` after `open((1, 1))`: everything except the two flagged
corners is opened. -/
def mid33 : Game := (flagged33.openCell (1, 1)).1

/-- `mid33` after `unflag((0, 0))` and `unflag((2, 2))`: a playing board on
which only the two corners are unopened and no flag is set. -/
def cexC1Board : Game := (mid33.unflag (0, 0)).unflag (2, 2)

/-- `regen22` after opening `(0, 0)` and `(0, 1)`: one non-mine cell,
`(1, 0)`, is still unopened. -/
def preWin22 : Game := ((regen22.openCell (0, 0)).1.openCell (0, 1)).1

/-- `opened22` after `question((1, 1))`: an opened cell is questioned. -/
def cexC7Board : Game := opened22.question (1, 1)

/-! ### Library lemmas about the Python indexing primitives -/

theorem pyIdx_of_nonneg (len : Nat) (i : Int) (h : 0 ≤ i) : pyIdx len i = i := by
  unfold pyIdx
  rw [if_neg (by omega)]

theorem pyGet_of_nonneg {α : Type} (l : List α) (i : Int) (h : 0 ≤ i) :
    pyGet l i = l[i.toNat]? := by
  unfold pyGet
  rw [pyIdx_of_nonneg _ _ h, if_pos h]

theorem setAdd_mem (l : List Point) (p q : Point) :
    q ∈ setAdd l p ↔ q ∈ l ∨ q = p := by
  unfold setAdd
  split
  · rename_i hp
    constructor
    · exact Or.inl
    · rintro (hq | rfl)
      · exact hq
      · exact hp
  · rw [List.mem_append, List.mem_singleton]

theorem setDiscard_mem (l : List Point) (p q : Point) :
    q ∈ setDiscard l p ↔ q ∈ l ∧ q ≠ p := by
  unfold setDiscard
  rw [List.mem_filter]
  simp

theorem pySet_length {α : Type} {l l2 : List α} {i : Int} {a : α}
    (h : pySet l i a = some l2) : l2.length = l.length := by
  unfold pySet at h
  split at h
  · rw [← Option.some.inj h, List.length_set]
  · exact absurd h (by simp)

theorem pySet_bounds {α : Type} {l l2 : List α} {i : Int} {a : α}
    (h : pySet l i a = some l2) :
    0 ≤ pyIdx l.length i ∧ pyIdx l.length i < l.length
      ∧ l2 = l.set (pyIdx l.length i).toNat a := by
  unfold pySet at h
  split at h
  · rename_i hc
    exact ⟨hc.1, hc.2, (Option.some.inj h).symm⟩
  · exact absurd h (by simp)

theorem pyGet_eq_of_idx_eq {α : Type} (l : List α) (i1 i2 : Int)
    (h : pyIdx l.length i1 = pyIdx l.length i2) : pyGet l i1 = pyGet l i2 := by
  unfold pyGet
  rw [h]

theorem pyGet_pySet_same {α : Type} {l l2 : List α} {i : Int} {a : α}
    (h : pySet l i a = some l2) : pyGet l2 i = some a := by
  obtain ⟨h0, hlt, rfl⟩ := pySet_bounds h
  unfold pyGet
  simp only [List.length_set]
  rw [if_pos h0]
  exact List.getElem?_set_self (by omega)

theorem pyGet_pySet_other {α : Type} {l l2 : List α} {i : Int} {a : α}
    (h : pySet l i a = some l2) (i2 : Int)
    (hne : pyIdx l.length i2 ≠ pyIdx l.length i) :
    pyGet l2 i2 = pyGet l i2 := by
  obtain ⟨h0, hlt, rfl⟩ := pySet_bounds h
  unfold pyGet
  simp only [List.length_set]
  by_cases h2 : 0 ≤ pyIdx l.length i2
  · rw [if_pos h2, if_pos h2]
    exact List.getElem?_set_ne (by omega)
  · rw [if_neg h2, if_neg h2]

theorem pyGet_pySet_cases {α : Type} {l l2 : List α} {i : Int} {a : α}
    (h : pySet l i a = some l2) (i2 : Int) :
    pyGet l2 i2 = pyGet l i2
      ∨ (pyIdx l.length i2 = pyIdx l.length i ∧ pyGet l2 i2 = some a) := by
  by_cases hne : pyIdx l.length i2 = pyIdx l.length i
  · right
    refine ⟨hne, ?_⟩
    have hidx2 : pyIdx l2.length i2 = pyIdx l2.length i := by
      rw [pySet_length h]
      exact hne
    rw [pyGet_eq_of_idx_eq l2 i2 i hidx2]
    exact pyGet_pySet_same h
  · left
    exact pyGet_pySet_other h i2 hne

theorem pyGet_pySet_none {α : Type} {l l2 : List α} {i : Int} {a : α}
    (h : pySet l i a = some l2) (i2 : Int) :
    pyGet l2 i2 = none ↔ pyGet l i2 = none := by
  obtain ⟨h0, hlt, rfl⟩ := pySet_bounds h
  unfold pyGet
  simp only [List.length_set]
  by_cases h2 : 0 ≤ pyIdx l.length i2
  · rw [if_pos h2, if_pos h2, List.getElem?_eq_none_iff, List.getElem?_eq_none_iff,
      List.length_set]
  · rw [if_neg h2, if_neg h2]

/-- Everything `_set_opened` does: the game changes only in the grid, the
written cell reads opened, reads that were `True` stay `True`, the indexing
domain is unchanged, and — for points with non-negative coordinates, where
Python indexing does not wrap — every other cell is untouched. -/
theorem setOpened_spec (g : Game) (p : Point) (g1 : Game)
    (h : g.setOpened p = some g1) :
    (∃ grid2, g1 = { g with cellOpenedGrid := grid2 })
    ∧ g1.isOpened p = some true
    ∧ (∀ q, g.isOpened q = some true → g1.isOpened q = some true)
    ∧ (∀ q, (g1.isOpened q = none ↔ g.isOpened q = none))
    ∧ (∀ q, 0 ≤ p.1 → 0 ≤ p.2 → 0 ≤ q.1 → 0 ≤ q.2 → q ≠ p →
        g1.isOpened q = g.isOpened q) := by
  unfold Game.setOpened at h
  split at h
  · exact absurd h (by simp)
  rename_i row hrow
  split at h
  · exact absurd h (by simp)
  rename_i row2 hrow2
  split at h
  · exact absurd h (by simp)
  rename_i grid2 hgrid2
  obtain rfl : { g with cellOpenedGrid := grid2 } = g1 := Option.some.inj h
  have hgrow : ∀ i2, pyIdx g.cellOpenedGrid.length i2
      = pyIdx g.cellOpenedGrid.length p.1 → pyGet g.cellOpenedGrid i2 = some row :=
    fun i2 hi => (pyGet_eq_of_idx_eq _ i2 p.1 hi).trans hrow
  refine ⟨⟨grid2, rfl⟩, ?_, ?_, ?_, ?_⟩
  · show (match pyGet grid2 p.1 with
      | none => none
      | some r => pyGet r p.2) = some true
    rw [pyGet_pySet_same hgrid2]
    exact pyGet_pySet_same hrow2
  · intro q hq
    unfold Game.isOpened at hq ⊢
    rcases hq2 : pyGet g.cellOpenedGrid q.1 with _ | rowq
    · rw [hq2] at hq
      exact absurd hq (by simp)
    rw [hq2] at hq
    show (match pyGet grid2 q.1 with
      | none => none
      | some r => pyGet r q.2) = some true
    rcases pyGet_pySet_cases hgrid2 q.1 with heq | ⟨hidx, heq⟩
    · rw [heq, hq2]
      exact hq
    · rw [heq]
      show pyGet row2 q.2 = some true
      have hrq : rowq = row := Option.some.inj (hq2.symm.trans (hgrow q.1 hidx))
      subst hrq
      rcases pyGet_pySet_cases hrow2 q.2 with heq2 | ⟨-, heq2⟩
      · rw [heq2]
        exact hq
      · exact heq2
  · intro q
    show (match pyGet grid2 q.1 with
      | none => none
      | some r => pyGet r q.2) = none
      ↔ (match pyGet g.cellOpenedGrid q.1 with
      | none => none
      | some r => pyGet r q.2) = none
    rcases pyGet_pySet_cases hgrid2 q.1 with heq | ⟨hidx, heq⟩
    · rw [heq]
    · rw [heq, hgrow q.1 hidx]
      exact pyGet_pySet_none hrow2 q.2
  · intro q hp1 hp2 hq1 hq2 hne
    show (match pyGet grid2 q.1 with
      | none => none
      | some r => pyGet r q.2)
      = (match pyGet g.cellOpenedGrid q.1 with
      | none => none
      | some r => pyGet r q.2)
    by_cases hx : q.1 = p.1
    · have hidx : pyIdx g.cellOpenedGrid.length q.1
          = pyIdx g.cellOpenedGrid.length p.1 := by rw [hx]
      have hy : q.2 ≠ p.2 := by
        intro hy
        exact hne (Prod.ext hx hy)
      have hne2 : pyIdx row.length q.2 ≠ pyIdx row.length p.2 := by
        rw [pyIdx_of_nonneg _ _ hq2, pyIdx_of_nonneg _ _ hp2]
        omega
      rcases pyGet_pySet_cases hgrid2 q.1 with heq | ⟨-, heq⟩
      · rw [heq]
      · rw [heq, hgrow q.1 hidx]
        show pyGet row2 q.2 = pyGet row q.2
        exact pyGet_pySet_other hrow2 q.2 hne2
    · have hne1 : pyIdx g.cellOpenedGrid.length q.1
          ≠ pyIdx g.cellOpenedGrid.length p.1 := by
        rw [pyIdx_of_nonneg _ _ hq1, pyIdx_of_nonneg _ _ hp1]
        omega
      rw [pyGet_pySet_other hgrid2 q.1 hne1]

theorem reach_genBoard22 : Reachable genBoard22 :=
  Reachable.generate _ none (fun _ => 0) (Reachable.init (2, 2) 1) (by decide)

theorem reach_opened22 : Reachable opened22 :=
  Reachable.openCell genBoard22 (1, 1) reach_genBoard22 (by decide)

theorem reach_lost22 : Reachable lost22 :=
  Reachable.openCell genBoard22 (0, 0) reach_genBoard22 (by decide)

theorem reach_regen22 : Reachable regen22 :=
  Reachable.generate opened22 none (fun _ => 3) reach_opened22 (by decide)

theorem reach_preWin22 : Reachable preWin22 :=
  Reachable.openCell _ (0, 1)
    (Reachable.openCell regen22 (0, 0) reach_regen22 (by decide)) (by decide)

/-! ### Shapes of the mark operations -/

/-- No two marks at once: the mutual-exclusion invariant of the claims. -/
def Game.marksMutex (g : Game) : Prop :=
  ∀ p : Point, ¬(p ∈ g.flaggedPoints ∧ p ∈ g.questionedPoints)

/-- The three possible outcomes of `flag`. -/
theorem flag_cases (g : Game) (p : Point) :
    g.flag p = (g, some PyErr.indexError) ∧ g.isOpened p = none
    ∨ g.flag p = (g, none) ∧ g.isOpened p = some true
    ∨ g.flag p = ({ g with
          flaggedPoints := setAdd g.flaggedPoints p
          questionedPoints := setDiscard g.questionedPoints p }, none)
        ∧ g.isOpened p = some false := by
  unfold Game.flag
  cases hio : g.isOpened p with
  | none => exact Or.inl ⟨rfl, rfl⟩
  | some b =>
    cases b with
    | true => exact Or.inr (Or.inl ⟨rfl, rfl⟩)
    | false => exact Or.inr (Or.inr ⟨rfl, rfl⟩)

theorem flag_shape (g : Game) (p : Point) :
    ∃ F Q, (g.flag p).1 = { g with flaggedPoints := F, questionedPoints := Q } := by
  rcases flag_cases g p with ⟨h, -⟩ | ⟨h, -⟩ | ⟨h, -⟩ <;> rw [h]
  · exact ⟨g.flaggedPoints, g.questionedPoints, rfl⟩
  · exact ⟨g.flaggedPoints, g.questionedPoints, rfl⟩
  · exact ⟨_, _, rfl⟩

theorem flag_flagged_mono (g : Game) (p q : Point) (h : q ∈ g.flaggedPoints) :
    q ∈ (g.flag p).1.flaggedPoints := by
  rcases flag_cases g p with ⟨he, -⟩ | ⟨he, -⟩ | ⟨he, -⟩ <;> rw [he]
  · exact h
  · exact h
  · exact (setAdd_mem _ _ _).2 (Or.inl h)

theorem flag_mutex (g : Game) (p : Point) (h : g.marksMutex) :
    (g.flag p).1.marksMutex := by
  rcases flag_cases g p with ⟨he, -⟩ | ⟨he, -⟩ | ⟨he, -⟩ <;> rw [he]
  · exact h
  · exact h
  · intro q ⟨hf, hq⟩
    obtain ⟨hq1, hq2⟩ := (setDiscard_mem _ _ _).1 hq
    rcases (setAdd_mem _ _ _).1 hf with hf1 | rfl
    · exact h q ⟨hf1, hq1⟩
    · exact hq2 rfl

theorem flagFold_shape (ms : List Point) : ∀ g : Game,
    ∃ F Q, (flagFold g ms).1 = { g with flaggedPoints := F, questionedPoints := Q } := by
  induction ms with
  | nil =>
    intro g
    exact ⟨g.flaggedPoints, g.questionedPoints, rfl⟩
  | cons m ms ih =>
    intro g
    rw [flagFold]
    rcases hfl : g.flag m with ⟨g1, err⟩
    obtain ⟨F1, Q1, hsh⟩ := flag_shape g m
    rw [hfl] at hsh
    cases err with
    | some e => exact ⟨F1, Q1, hsh⟩
    | none =>
      obtain ⟨F2, Q2, hsh2⟩ := ih g1
      have hg1 : g1 = { g with flaggedPoints := F1, questionedPoints := Q1 } := hsh
      refine ⟨F2, Q2, ?_⟩
      rw [hsh2, hg1]

theorem flagFold_fields (ms : List Point) (g : Game) :
    (flagFold g ms).1.cellOpenedGrid = g.cellOpenedGrid
    ∧ (flagFold g ms).1.minePoints = g.minePoints
    ∧ (flagFold g ms).1.state = g.state
    ∧ (flagFold g ms).1.size = g.size := by
  obtain ⟨F, Q, h⟩ := flagFold_shape ms g
  rw [h]
  exact ⟨rfl, rfl, rfl, rfl⟩

theorem flagFold_flagged_mono (ms : List Point) : ∀ (g : Game) (q : Point),
    q ∈ g.flaggedPoints → q ∈ (flagFold g ms).1.flaggedPoints := by
  induction ms with
  | nil =>
    intro g q h
    exact h
  | cons m ms ih =>
    intro g q h
    rw [flagFold]
    rcases hfl : g.flag m with ⟨g1, err⟩
    have h1 : q ∈ g1.flaggedPoints := by
      have := flag_flagged_mono g m q h
      rw [hfl] at this
      exact this
    cases err with
    | some e => exact h1
    | none => exact ih g1 q h1

theorem flag_flagged_upper (g : Game) (p q : Point)
    (h : q ∈ (g.flag p).1.flaggedPoints) : q ∈ g.flaggedPoints ∨ q = p := by
  rcases flag_cases g p with ⟨he, -⟩ | ⟨he, -⟩ | ⟨he, -⟩ <;> rw [he] at h
  · exact Or.inl h
  · exact Or.inl h
  · exact (setAdd_mem _ _ _).1 h

theorem flagFold_flagged_upper (ms : List Point) : ∀ (g : Game) (q : Point),
    q ∈ (flagFold g ms).1.flaggedPoints → q ∈ g.flaggedPoints ∨ q ∈ ms := by
  induction ms with
  | nil =>
    intro g q h
    exact Or.inl h
  | cons m ms ih =>
    intro g q h
    rw [flagFold] at h
    rcases hfl : g.flag m with ⟨g1, err⟩
    rw [hfl] at h
    have hup : q ∈ g1.flaggedPoints → q ∈ g.flaggedPoints ∨ q = m := by
      intro hq
      have := flag_flagged_upper g m q
      rw [hfl] at this
      exact this hq
    cases err with
    | some e =>
      rcases hup h with h2 | rfl
      · exact Or.inl h2
      · exact Or.inr (List.mem_cons_self _ _)
    | none =>
      rcases ih g1 q h with h2 | h2
      · rcases hup h2 with h3 | rfl
        · exact Or.inl h3
        · exact Or.inr (List.mem_cons_self _ _)
      · exact Or.inr (List.mem_cons_of_mem _ h2)

theorem flagFold_mutex (ms : List Point) : ∀ g : Game,
    g.marksMutex → (flagFold g ms).1.marksMutex := by
  induction ms with
  | nil =>
    intro g h
    exact h
  | cons m ms ih =>
    intro g h
    rw [flagFold]
    rcases hfl : g.flag m with ⟨g1, err⟩
    have h1 : g1.marksMutex := by
      have := flag_mutex g m h
      rw [hfl] at this
      exact this
    cases err with
    | some e => exact h1
    | none => exact ih g1 h1

theorem flagFold_ok_flags (ms : List Point) : ∀ (g g2 : Game),
    flagFold g ms = (g2, none) →
    ∀ m ∈ ms, g.isOpened m ≠ some true → m ∈ g2.flaggedPoints := by
  induction ms with
  | nil =>
    intro g g2 _ m hm
    exact absurd hm (List.not_mem_nil m)
  | cons m0 ms ih =>
    intro g g2 h m hm hop
    rw [flagFold] at h
    rcases flag_cases g m0 with ⟨he, hio⟩ | ⟨he, hio⟩ | ⟨he, hio⟩ <;> rw [he] at h
    · simp at h
    · have h2 : flagFold g ms = (g2, none) := h
      rcases List.mem_cons.1 hm with rfl | hm2
      · exact absurd hio hop
      · exact ih g g2 h2 m hm2 hop
    · have h2 : flagFold { g with
          flaggedPoints := setAdd g.flaggedPoints m0
          questionedPoints := setDiscard g.questionedPoints m0 } ms = (g2, none) := h
      rcases List.mem_cons.1 hm with rfl | hm2
      · have hstart : m ∈ (setAdd g.flaggedPoints m : List Point) :=
          (setAdd_mem _ _ _).2 (Or.inr rfl)
        have hmono := flagFold_flagged_mono ms
          { g with
            flaggedPoints := setAdd g.flaggedPoints m
            questionedPoints := setDiscard g.questionedPoints m } m hstart
        rw [h2] at hmono
        exact hmono
      · refine ih _ g2 h2 m hm2 ?_
        exact hop

/-! ### Shapes of `is_won` and the per-iteration win check -/

theorem scanOpened_true_iff (g : Game) : ∀ l : List Point,
    scanOpened g l = Except.ok true ↔ ∀ q ∈ l, g.isOpened q = some true := by
  intro l
  induction l with
  | nil => simp [scanOpened]
  | cons p ps ih =>
    rw [scanOpened]
    cases hio : g.isOpened p with
    | none => simp [hio]
    | some b =>
      cases b with
      | false => simp [hio]
      | true => simp [hio, ih]

theorem nonMinePoints_mem (g : Game) (q : Point) :
    q ∈ g.nonMinePoints ↔ q ∈ g.boardPoints ∧ q ∉ g.minePoints := by
  unfold Game.nonMinePoints
  rw [List.mem_filter]
  simp

theorem allNonMineOpened_iff_scan (g : Game) :
    g.allNonMineOpened ↔ scanOpened g g.nonMinePoints = Except.ok true := by
  rw [scanOpened_true_iff]
  unfold Game.allNonMineOpened
  constructor
  · intro h q hq
    obtain ⟨h1, h2⟩ := (nonMinePoints_mem g q).1 hq
    exact h q h1 h2
  · intro h q hq1 hq2
    exact h q ((nonMinePoints_mem g q).2 ⟨hq1, hq2⟩)

/-- The four possible outcomes of `is_won`. -/
theorem isWon_cases (g : Game) :
    (g.state = GameState.won ∧ g.isWon = (g, Except.ok true))
    ∨ (g.state = GameState.lost ∧ g.isWon = (g, Except.ok false))
    ∨ (g.state ≠ GameState.won ∧ g.state ≠ GameState.lost
        ∧ ((g.allNonMineOpened
            ∧ g.isWon = ({ g with state := GameState.won }, Except.ok true))
          ∨ (¬ g.allNonMineOpened ∧ g.isWon.1 = g ∧ g.isWon.2 ≠ Except.ok true))) := by
  unfold Game.isWon
  by_cases hw : g.state = GameState.won
  · rw [if_pos hw]
    exact Or.inl ⟨hw, rfl⟩
  rw [if_neg hw]
  by_cases hl : g.state = GameState.lost
  · rw [if_pos hl]
    exact Or.inr (Or.inl ⟨hl, rfl⟩)
  rw [if_neg hl]
  refine Or.inr (Or.inr ⟨hw, hl, ?_⟩)
  cases hscan : scanOpened g g.nonMinePoints with
  | ok b =>
    cases b with
    | true =>
      exact Or.inl ⟨(allNonMineOpened_iff_scan g).2 hscan, rfl⟩
    | false =>
      refine Or.inr ⟨?_, rfl, by simp⟩
      rw [allNonMineOpened_iff_scan, hscan]
      simp
  | error e =>
    refine Or.inr ⟨?_, rfl, by simp⟩
    rw [allNonMineOpened_iff_scan, hscan]
    simp

/-- Everything a non-raising win check (`if self.is_won(): self._flag_all_mines()`)
does: only the marks and the state can change, mutual exclusion and flags are
preserved, the state moves only to `won` and only when every non-mine cell is
opened, and if every non-mine cell is opened (in a playing or won game) the
state ends `won` with every unopened mine flagged. -/
theorem winStep_spec (g g2 : Game) (h : winStep g = (g2, none)) :
    (∃ F Q s, g2 = { g with flaggedPoints := F, questionedPoints := Q, state := s })
    ∧ (g.marksMutex → g2.marksMutex)
    ∧ (∀ q ∈ g.flaggedPoints, q ∈ g2.flaggedPoints)
    ∧ (g2.state = g.state ∨ (g2.state = GameState.won ∧ g.allNonMineOpened))
    ∧ (g.allNonMineOpened →
        (g.state = GameState.playing ∨ g.state = GameState.won) →
        g2.state = GameState.won
        ∧ ∀ m ∈ g.minePoints, g.isOpened m ≠ some true → m ∈ g2.flaggedPoints)
    ∧ (∀ q ∈ g2.flaggedPoints, q ∈ g.flaggedPoints ∨ q ∈ g.minePoints) := by
  unfold winStep at h
  rcases isWon_cases g with ⟨hst, hiw⟩ | ⟨hst, hiw⟩ | ⟨hw, hl, hrest⟩
  · rw [hiw] at h
    have h2 : flagFold g g.minePoints = (g2, none) := h
    obtain ⟨F, Q, hsh⟩ := flagFold_shape g.minePoints g
    rw [h2] at hsh
    have hsh2 : g2 = { g with flaggedPoints := F, questionedPoints := Q } := hsh
    refine ⟨⟨F, Q, g.state, hsh2⟩, ?_, ?_, ?_, ?_⟩
    · intro hm
      have hx := flagFold_mutex g.minePoints g hm
      rw [h2] at hx
      exact hx
    · intro q hq
      have hx := flagFold_flagged_mono g.minePoints g q hq
      rw [h2] at hx
      exact hx
    · left
      rw [hsh2]
    · refine ⟨?_, ?_⟩
      · intro _ _
        refine ⟨by rw [hsh2]; exact hst, ?_⟩
        intro m hm hop
        exact flagFold_ok_flags g.minePoints g g2 h2 m hm hop
      · intro q hq
        have hx := flagFold_flagged_upper g.minePoints g q
        rw [h2] at hx
        exact hx hq
  · rw [hiw] at h
    have h2 : (g, (none : Option PyErr)) = (g2, none) := h
    obtain rfl : g = g2 := congrArg Prod.fst h2
    refine ⟨⟨g.flaggedPoints, g.questionedPoints, g.state, rfl⟩,
      fun hm => hm, fun q hq => hq, Or.inl rfl, ?_, fun q hq => Or.inl hq⟩
    intro _ hps
    rw [hst] at hps
    rcases hps with hps | hps <;> exact absurd hps (by simp)
  · rcases hrest with ⟨hall, hiw⟩ | ⟨hnall, hiw1, hiw2⟩
    · rw [hiw] at h
      have h2 : flagFold { g with state := GameState.won }
          ({ g with state := GameState.won } : Game).minePoints = (g2, none) := h
      obtain ⟨F, Q, hsh⟩ :=
        flagFold_shape ({ g with state := GameState.won } : Game).minePoints
          { g with state := GameState.won }
      rw [h2] at hsh
      have hsh2 : g2 = { g with
          flaggedPoints := F
          questionedPoints := Q
          state := GameState.won } := hsh
      refine ⟨⟨F, Q, GameState.won, hsh2⟩, ?_, ?_, ?_, ?_⟩
      · intro hm
        have hx := flagFold_mutex
          ({ g with state := GameState.won } : Game).minePoints
          { g with state := GameState.won } hm
        rw [h2] at hx
        exact hx
      · intro q hq
        have hx := flagFold_flagged_mono
          ({ g with state := GameState.won } : Game).minePoints
          { g with state := GameState.won } q hq
        rw [h2] at hx
        exact hx
      · right
        exact ⟨by rw [hsh2], hall⟩
      · refine ⟨?_, ?_⟩
        · intro _ _
          refine ⟨by rw [hsh2], ?_⟩
          intro m hm hop
          exact flagFold_ok_flags _ _ g2 h2 m hm hop
        · intro q hq
          have hx := flagFold_flagged_upper
            ({ g with state := GameState.won } : Game).minePoints
            { g with state := GameState.won } q
          rw [h2] at hx
          exact hx hq
    · rcases hiw3 : g.isWon with ⟨gw, r⟩
      rw [hiw3] at h hiw1 hiw2
      cases r with
      | error e => simp at h
      | ok b =>
        cases b with
        | true => exact absurd rfl hiw2
        | false =>
          have h2 : (gw, (none : Option PyErr)) = (g2, none) := h
          have hgw : gw = g := hiw1
          have hg2 : g2 = g := (Prod.mk.inj h2).1.symm.trans hgw
          refine ⟨⟨g.flaggedPoints, g.questionedPoints, g.state, by rw [hg2]⟩,
            ?_, ?_, ?_, ?_, ?_⟩
          · intro hm
            rw [hg2]
            exact hm
          · intro q hq
            rw [hg2]
            exact hq
          · left
            rw [hg2]
          · intro hall _
            exact absurd hall hnall
          · intro q hq
            rw [hg2] at hq
            exact Or.inl hq

/-! ### The flood-fill loop preserves per-state invariants -/

theorem openLoop_preserves (P : Game → Prop)
    (hset : ∀ g p g1, g.setOpened p = some g1 → P g → P g1)
    (hwin : ∀ g g1, winStep g = (g1, none) → P g → P g1) :
    ∀ (fuel : Nat) (g : Game) (q : List Point) (g' : Game),
      openLoop fuel g q = (g', none) → P g → P g' := by
  intro fuel
  induction fuel with
  | zero =>
    intro g q g' h
    rw [openLoop] at h
    simp at h
  | succ fuel ih =>
    intro g q g' h hp
    cases q with
    | nil =>
      rw [openLoop] at h
      have h2 : (g, (none : Option PyErr)) = (g', none) := h
      rw [← (Prod.mk.inj h2).1]
      exact hp
    | cons pt rest =>
      rw [openLoop] at h
      split at h
      · simp at h
      · exact ih g rest g' h hp
      · split at h
        · split at h
          · simp at h
          · rename_i g1 heqw
            exact ih g1 rest g' h (hwin g g1 heqw hp)
        · split at h
          · simp at h
          · rename_i g1 heqs
            split at h
            · split at h
              · simp at h
              · rename_i g2 heqw
                exact ih g2 _ g' h (hwin g1 g2 heqw (hset g pt g1 heqs hp))
            · split at h
              · simp at h
              · rename_i g2 heqw
                exact ih g2 _ g' h (hwin g1 g2 heqw (hset g pt g1 heqs hp))

theorem finishGenerate_shape (g : Game) (dps : Option (List Point))
    (res : List Point × List Point × Option PyErr) :
    ∃ mines st lc, (g.finishGenerate dps res).1
      = { g with minePoints := mines, state := st, lastClick := lc } := by
  rcases res with ⟨mines, pool, err⟩
  cases err with
  | some e => exact ⟨mines, g.state, g.lastClick, rfl⟩
  | none =>
    by_cases hc : ((pool.length : Int) + mines.length : Int)
        = (g.size.1 * g.size.2 : Int) - disallowedLen dps
    · refine ⟨mines, GameState.playing, none, ?_⟩
      rw [Game.finishGenerate, if_pos hc]
    · refine ⟨mines, g.state, g.lastClick, ?_⟩
      rw [Game.finishGenerate, if_neg hc]

theorem generateBoard_shape (g : Game) (dps : Option (List Point)) (o : Nat → Nat) :
    ∃ mines st lc, (g.generateBoard dps o).1
      = { g with minePoints := mines, state := st, lastClick := lc } := by
  unfold Game.generateBoard
  exact finishGenerate_shape g dps _

/-- The outcomes of a non-raising `open`: the state must have been playing,
and the result is the no-op update, the loss, or the flood-fill loop. -/
theorem openCell_ok_cases (g : Game) (p : Point) (g' : Game)
    (h : g.openCell p = (g', none)) :
    g.state = GameState.playing
    ∧ (g' = { g with lastClick := some p }
      ∨ g' = { g with lastClick := (some p), state := GameState.lost }
      ∨ openLoop ({ g with lastClick := some p } : Game).openFuel
          { g with lastClick := some p } [p] = (g', none)) := by
  unfold Game.openCell at h
  by_cases hs : g.state = GameState.playing
  · rw [if_pos hs] at h
    dsimp only at h
    refine ⟨hs, ?_⟩
    split at h
    · simp at h
    · have h2 : (({ g with lastClick := some p } : Game), (none : Option PyErr))
          = (g', none) := h
      exact Or.inl (Prod.mk.inj h2).1.symm
    · split at h
      · have h2 : (({ g with lastClick := some p } : Game), (none : Option PyErr))
            = (g', none) := h
        exact Or.inl (Prod.mk.inj h2).1.symm
      · split at h
        · have h2 : (({ g with lastClick := (some p), state := GameState.lost } : Game),
              (none : Option PyErr)) = (g', none) := h
          exact Or.inr (Or.inl (Prod.mk.inj h2).1.symm)
        · exact Or.inr (Or.inr h)
  · rw [if_neg hs] at h
    simp at h

theorem setOpened_preserves_inv (g : Game) (p : Point) (g1 : Game)
    (h : g.setOpened p = some g1) :
    (g.marksMutex → g1.marksMutex)
    ∧ ((g.state = GameState.won → g.allNonMineOpened)
        → (g1.state = GameState.won → g1.allNonMineOpened)) := by
  obtain ⟨⟨grid2, rfl⟩, -, hmono, -, -⟩ := setOpened_spec g p g1 h
  constructor
  · exact fun hm => hm
  · intro hw hst
    have hall : g.allNonMineOpened := hw hst
    intro q hq hqm
    exact hmono q (hall q hq hqm)

theorem winStep_preserves_inv (g g2 : Game) (h : winStep g = (g2, none)) :
    (g.marksMutex → g2.marksMutex)
    ∧ ((g.state = GameState.won → g.allNonMineOpened)
        → (g2.state = GameState.won → g2.allNonMineOpened)) := by
  obtain ⟨⟨F, Q, s, rfl⟩, hmux, -, hstc, -, -⟩ := winStep_spec g _ h
  refine ⟨hmux, ?_⟩
  intro hw hst
  rcases hstc with hstc | ⟨-, hall⟩
  · have hgw : g.state = GameState.won := by
      rw [← hstc]
      exact hst
    exact hw hgw
  · exact hall

/-! ### Lemmas about board generation -/

theorem boardPoints_mem (g : Game) (q : Point) :
    q ∈ g.boardPoints ↔ g.inRange q := by
  unfold Game.boardPoints Game.inRange
  constructor
  · intro hq
    obtain ⟨x, hx, hq2⟩ := List.mem_flatMap.1 hq
    obtain ⟨y, hy, heq⟩ := List.mem_map.1 hq2
    rw [List.mem_range] at hx hy
    subst heq
    refine ⟨?_, ?_, ?_, ?_⟩ <;> dsimp only <;> omega
  · intro h
    obtain ⟨h1, h2, h3, h4⟩ := h
    refine List.mem_flatMap.2 ⟨q.1.toNat, ?_, List.mem_map.2 ⟨q.2.toNat, ?_, ?_⟩⟩
    · rw [List.mem_range]
      omega
    · rw [List.mem_range]
      omega
    · exact Prod.ext (Int.toNat_of_nonneg h1) (Int.toNat_of_nonneg h3)

theorem boardPoints_nodup (g : Game) : g.boardPoints.Nodup := by
  unfold Game.boardPoints
  refine List.nodup_flatMap.2 ⟨?_, ?_⟩
  · intro x _
    refine List.Nodup.map ?_ (List.nodup_range _)
    intro a b hab
    have : (a : Int) = (b : Int) := congrArg Prod.snd hab
    omega
  · refine List.Pairwise.imp ?_ (List.nodup_range g.size.1)
    intro a b hab pt hpa hpb
    obtain ⟨ya, _, rfl⟩ := List.mem_map.1 hpa
    obtain ⟨yb, _, heq⟩ := List.mem_map.1 hpb
    have : (b : Int) = (a : Int) := congrArg Prod.fst heq
    omega

theorem eligiblePoints_mem (g : Game) (dps : Option (List Point)) (q : Point) :
    q ∈ g.eligiblePoints dps ↔
      g.inRange q ∧ ∀ l, dps = some l → q ∉ l := by
  unfold Game.eligiblePoints
  rw [List.mem_filter, boardPoints_mem]
  cases dps with
  | none => simp
  | some l => simp

theorem eligiblePoints_nodup (g : Game) (dps : Option (List Point)) :
    (g.eligiblePoints dps).Nodup :=
  (boardPoints_nodup g).filter _

theorem genLoop_ok (o : Nat → Nat) :
    ∀ (n k : Nat) (pool mines mines' pool' : List Point),
      pool.Nodup → mines.Nodup → (∀ q ∈ pool, q ∉ mines) →
      genLoop o k n pool mines = (mines', pool', none) →
      mines'.length = mines.length + n ∧ mines'.Nodup
        ∧ ∀ m ∈ mines', m ∈ mines ∨ m ∈ pool := by
  intro n
  induction n with
  | zero =>
    intro k pool mines mines' pool' _ hmnd _ h
    rw [genLoop] at h
    obtain ⟨rfl, rfl, -⟩ : mines = mines' ∧ pool = pool' ∧ True := by
      refine ⟨congrArg (·.1) h, ?_, trivial⟩
      have := congrArg (·.2.1) h
      exact this
    exact ⟨rfl, hmnd, fun m hm => Or.inl hm⟩
  | succ n ih =>
    intro k pool mines mines' pool' hpnd hmnd hdisj h
    rw [genLoop] at h
    split at h
    · simp at h
    · rename_i idx heq
      rw [randint] at heq
      split at heq
      · rename_i h0
        have hlen : 0 < pool.length := by omega
        obtain rfl : 0 + (o k : Int) % ((pool.length : Int) - 1 - 0 + 1) = idx :=
          Except.ok.inj heq
        have harith : ((pool.length : Int) - 1 - 0 + 1) = (pool.length : Int) := by
          ring
        rw [harith, zero_add] at h
        set i := ((o k : Int) % (pool.length : Int)).toNat with hi
        have hidxlt : i < pool.length := by
          have h1 : 0 ≤ (o k : Int) % (pool.length : Int) :=
            Int.emod_nonneg _ (by omega)
          have h2 : (o k : Int) % (pool.length : Int) < (pool.length : Int) :=
            Int.emod_lt_of_pos _ (by omega)
          omega
        split at h
        · rename_i heq2
          rw [List.getElem?_eq_getElem hidxlt] at heq2
          exact absurd heq2 (by simp)
        · rename_i pt heq2
          obtain ⟨hlt2, hpt⟩ := List.getElem?_eq_some_iff.1 heq2
          have hptmem : pt ∈ pool := by
            rw [← hpt]
            exact List.getElem_mem hlt2
          have hptnm : pt ∉ mines := hdisj _ hptmem
          rw [setAdd, if_neg hptnm] at h
          have hnd2 : (pool.eraseIdx i).Nodup := hpnd.eraseIdx i
          have hmnd2 : (mines ++ [pt]).Nodup := by
            rw [List.nodup_append]
            refine ⟨hmnd, List.nodup_singleton _, ?_⟩
            intro a ha hb
            rw [List.mem_singleton] at hb
            subst hb
            exact hptnm ha
          have hdisj2 : ∀ q ∈ pool.eraseIdx i, q ∉ mines ++ [pt] := by
            intro q hq
            rw [List.mem_append, List.mem_singleton]
            push_neg
            refine ⟨hdisj _ (List.mem_of_mem_eraseIdx hq), ?_⟩
            obtain ⟨j, hj, hne, hje⟩ := List.mem_eraseIdx_iff_getElem.1 hq
            intro hqe
            rw [← hje, ← hpt] at hqe
            exact hne (hpnd.getElem_inj_iff.1 hqe)
          obtain ⟨hlen', hnd', hmem'⟩ := ih (k + 1) _ _ _ _ hnd2 hmnd2 hdisj2 h
          refine ⟨by simp at hlen'; omega, hnd', ?_⟩
          intro m hm
          rcases hmem' m hm with hm1 | hm2
          · rcases List.mem_append.1 hm1 with hm3 | hm4
            · exact Or.inl hm3
            · rw [List.mem_singleton] at hm4
              subst hm4
              exact Or.inr hptmem
          · exact Or.inr (List.mem_of_mem_eraseIdx hm2)
      · exact absurd heq (by simp)

theorem genLoop_exhausted (o : Nat → Nat) :
    ∀ (n k : Nat) (pool mines : List Point), pool.length < n →
      (genLoop o k n pool mines).2.2 = some PyErr.valueError := by
  intro n
  induction n with
  | zero =>
    intro k pool mines h
    omega
  | succ n ih =>
    intro k pool mines h
    rw [genLoop]
    split
    · rename_i e heq
      rw [randint] at heq
      split at heq
      · exact absurd heq (by simp)
      · rename_i h0
        have : e = PyErr.valueError := (Except.error.inj heq).symm
        rw [this]
    · rename_i idx heq
      rw [randint] at heq
      split at heq
      · rename_i h0
        have hlen : 0 < pool.length := by omega
        obtain rfl : 0 + (o k : Int) % ((pool.length : Int) - 1 - 0 + 1) = idx :=
          Except.ok.inj heq
        have harith : ((pool.length : Int) - 1 - 0 + 1) = (pool.length : Int) := by
          ring
        rw [harith, zero_add]
        have hidxlt : ((o k : Int) % (pool.length : Int)).toNat < pool.length := by
          have h1 : 0 ≤ (o k : Int) % (pool.length : Int) :=
            Int.emod_nonneg _ (by omega)
          have h2 : (o k : Int) % (pool.length : Int) < (pool.length : Int) :=
            Int.emod_lt_of_pos _ (by omega)
          omega
        rw [List.getElem?_eq_getElem hidxlt]
        apply ih
        rw [List.length_eraseIdx_of_lt hidxlt]
        omega
      · exact absurd heq (by simp)

/-- Specification of a successful `generate_board` call, shared by the
claim theorems: the mine list holds exactly `mine_count` distinct in-bounds
points avoiding the exclusions, the state becomes `playing` and
`last_click` is cleared. -/
theorem generateBoard_ok_spec (g g' : Game) (dps : Option (List Point))
    (o : Nat → Nat) (h : g.generateBoard dps o = (g', none)) :
    g'.minePoints.length = g.mineCount ∧ g'.minePoints.Nodup
    ∧ (∀ m ∈ g'.minePoints, g.inRange m ∧ ∀ l, dps = some l → m ∉ l)
    ∧ g'.state = GameState.playing ∧ g'.lastClick = none := by
  unfold Game.generateBoard at h
  rcases hgen : genLoop o 0 g.mineCount (g.eligiblePoints dps) [] with
    ⟨mines, pool, err⟩
  rw [hgen] at h
  cases err with
  | some e => simp [Game.finishGenerate] at h
  | none =>
    rw [Game.finishGenerate] at h
    split at h
    · rw [Prod.mk.injEq] at h
      obtain ⟨hg', -⟩ := h
      subst hg'
      obtain ⟨hlen, hnd, hmem⟩ := genLoop_ok o g.mineCount 0 _ [] mines pool
        (eligiblePoints_nodup g dps) List.nodup_nil
        (by intro q hq; exact fun hq2 => List.not_mem_nil _ hq2) hgen
      refine ⟨by simpa using hlen, hnd, ?_, rfl, rfl⟩
      intro m hm
      rcases hmem m hm with hm1 | hm2
      · exact absurd hm1 (List.not_mem_nil m)
      · exact (eligiblePoints_mem g dps m).1 hm2
    · rw [Prod.mk.injEq] at h
      exact absurd h.2 (by simp)

/-- `generate_board` reads only `size` and `mine_count` from the object
state: two games agreeing on those fields produce the same error behaviour
and the same mines (in particular the current `state` is never checked). -/
theorem finishGenerate_state_blind (g1 g2 : Game) (dps : Option (List Point))
    (res : List Point × List Point × Option PyErr) (hsz : g1.size = g2.size) :
    (g1.finishGenerate dps res).2 = (g2.finishGenerate dps res).2
    ∧ (g1.finishGenerate dps res).1.minePoints
        = (g2.finishGenerate dps res).1.minePoints := by
  rcases res with ⟨mines, pool, err⟩
  cases err with
  | some e => exact ⟨rfl, rfl⟩
  | none =>
    rw [Game.finishGenerate, Game.finishGenerate, ← hsz]
    by_cases hc : ((pool.length : Int) + mines.length : Int)
        = (g1.size.1 * g1.size.2 : Int) - disallowedLen dps
    · rw [if_pos hc, if_pos hc]
      exact ⟨rfl, rfl⟩
    · rw [if_neg hc, if_neg hc]
      exact ⟨rfl, rfl⟩

/-- `generate_board` reads only `size` and `mine_count` from the object
state: two games agreeing on those fields produce the same error behaviour
and the same mines (in particular the current `state` is never checked). -/
theorem generateBoard_state_blind (g1 g2 : Game) (dps : Option (List Point))
    (o : Nat → Nat) (hsz : g1.size = g2.size) (hmc : g1.mineCount = g2.mineCount) :
    (g1.generateBoard dps o).2 = (g2.generateBoard dps o).2
    ∧ (g1.generateBoard dps o).1.minePoints = (g2.generateBoard dps o).1.minePoints := by
  have helig : g1.eligiblePoints dps = g2.eligiblePoints dps := by
    unfold Game.eligiblePoints Game.boardPoints
    rw [hsz]
  unfold Game.generateBoard
  rw [← helig, ← hmc]
  exact finishGenerate_state_blind g1 g2 dps _ hsz

/-- The two invariants C7 and C2 rest on: no point is simultaneously flagged
and questioned, and a board in the `won` state has every non-mine cell
opened.  They hold in every reachable state. -/
theorem reachable_inv (g : Game) (hr : Reachable g) :
    g.marksMutex ∧ (g.state = GameState.won → g.allNonMineOpened) := by
  induction hr with
  | init size mineCount =>
    constructor
    · intro p hp
      exact List.not_mem_nil _ hp.1
    · intro hw
      exact absurd hw (by simp [Game.init])
  | generate g dps o hr hok ih =>
    obtain ⟨mines, st, lc, hsh⟩ := generateBoard_shape g dps o
    have hst : (g.generateBoard dps o).1.state = GameState.playing :=
      (generateBoard_ok_spec g _ dps o (Prod.ext rfl hok)).2.2.2.1
    rw [hsh] at hst ⊢
    constructor
    · exact ih.1
    · intro hw
      rw [hst] at hw
      exact absurd hw (by simp)
  | openCell g p hr hok ih =>
    obtain ⟨hs, hcases⟩ := openCell_ok_cases g p _ (Prod.ext rfl hok)
    rcases hcases with hg' | hg' | hloop
    · simp only [hg']
      refine ⟨ih.1, ?_⟩
      intro hw
      have hw2 : g.state = GameState.won := hw
      rw [hs] at hw2
      exact absurd hw2 (by simp)
    · simp only [hg']
      refine ⟨ih.1, ?_⟩
      intro hw
      have hw2 : GameState.lost = GameState.won := hw
      exact absurd hw2 (by simp)
    · have := openLoop_preserves
        (fun c => c.marksMutex ∧ (c.state = GameState.won → c.allNonMineOpened))
        (fun g0 p0 g1 hset hp => ⟨(setOpened_preserves_inv g0 p0 g1 hset).1 hp.1,
          (setOpened_preserves_inv g0 p0 g1 hset).2 hp.2⟩)
        (fun g0 g1 hwin hp => ⟨(winStep_preserves_inv g0 g1 hwin).1 hp.1,
          (winStep_preserves_inv g0 g1 hwin).2 hp.2⟩)
        _ _ _ _ hloop ?_
      · exact this
      · refine ⟨ih.1, ?_⟩
        intro hw
        have hw2 : g.state = GameState.won := hw
        rw [hs] at hw2
        exact absurd hw2 (by simp)
  | flag g p hr ih =>
    obtain ⟨F, Q, hsh⟩ := flag_shape g p
    rw [hsh]
    have hmux := flag_mutex g p ih.1
    rw [hsh] at hmux
    exact ⟨hmux, fun hw => ih.2 hw⟩
  | unflag g p hr ih =>
    constructor
    · intro q hq
      obtain ⟨hf, hqn⟩ := hq
      obtain ⟨hf2, -⟩ := (setDiscard_mem _ _ _).1 hf
      obtain ⟨hq2, -⟩ := (setDiscard_mem _ _ _).1 hqn
      exact ih.1 q ⟨hf2, hq2⟩
    · exact fun hw => ih.2 hw
  | question g p hr ih =>
    constructor
    · intro q hq
      obtain ⟨hf, hqn⟩ := hq
      obtain ⟨hf2, hf3⟩ := (setDiscard_mem _ _ _).1 hf
      rcases (setAdd_mem _ _ _).1 hqn with hq2 | rfl
      · exact ih.1 q ⟨hf2, hq2⟩
      · exact hf3 rfl
    · exact fun hw => ih.2 hw
  | unquestion g p hr ih =>
    constructor
    · intro q hq
      obtain ⟨hf, hqn⟩ := hq
      obtain ⟨hf2, -⟩ := (setDiscard_mem _ _ _).1 hf
      obtain ⟨hq2, -⟩ := (setDiscard_mem _ _ _).1 hqn
      exact ih.1 q ⟨hf2, hq2⟩
    · exact fun hw => ih.2 hw
  | isWon g hr ih =>
    rcases isWon_cases g with ⟨hst, hiw⟩ | ⟨hst, hiw⟩ | ⟨hw, hl, hrest⟩
    · rw [hiw]
      exact ih
    · rw [hiw]
      exact ih
    · rcases hrest with ⟨hall, hiw⟩ | ⟨-, hiw1, -⟩
      · rw [hiw]
        exact ⟨ih.1, fun _ => hall⟩
      · rw [hiw1]
        exact ih

/-- The key flood-fill loop fact behind C2: relative to a reference state
`g0` (the state at the start of the `open` call) whose mines `M` are
in-bounds and whose queue points are in-bounds, the loop maintains: the
mines and their opened-flags never change, the state stays playing-or-won,
and whenever every non-mine cell is opened the state is `won` with every
originally-unopened mine flagged. -/
theorem openLoop_won_flags (g0 : Game) (M : List Point) :
    ∀ (fuel : Nat) (cur : Game) (q : List Point) (g' : Game),
      openLoop fuel cur q = (g', none) →
      cur.size = g0.size →
      cur.minePoints = M →
      (∀ x ∈ q, g0.inRange x) →
      (∀ m ∈ M, g0.inRange m) →
      (∀ m ∈ M, cur.isOpened m = g0.isOpened m) →
      (cur.state = GameState.playing ∨ cur.state = GameState.won) →
      (cur.allNonMineOpened →
        cur.state = GameState.won
        ∧ ∀ m ∈ M, g0.isOpened m ≠ some true → m ∈ cur.flaggedPoints) →
      (g'.allNonMineOpened →
        g'.state = GameState.won
        ∧ ∀ m ∈ M, g0.isOpened m ≠ some true → m ∈ g'.flaggedPoints) := by
  intro fuel
  induction fuel with
  | zero =>
    intro cur q g' h
    rw [openLoop] at h
    simp at h
  | succ fuel ih =>
    intro cur q g' h hsz hM hq hMin hMop hst hJ
    cases q with
    | nil =>
      rw [openLoop] at h
      have h2 : (cur, (none : Option PyErr)) = (g', none) := h
      rw [← (Prod.mk.inj h2).1]
      exact hJ
    | cons pt rest =>
      have hqrest : ∀ x ∈ rest, g0.inRange x := fun x hx => hq x (List.mem_cons_of_mem _ hx)
      rw [openLoop] at h
      split at h
      · simp at h
      · exact ih cur rest g' h hsz hM hqrest hMin hMop hst hJ
      · rename_i hio
        split at h
        · -- mine or flagged: only the win check runs
          split at h
          · simp at h
          · rename_i c2 heqw
            obtain ⟨⟨F, Q, sst, rfl⟩, -, -, hstc, hwall, -⟩ := winStep_spec cur c2 heqw
            refine ih _ rest g' h hsz hM hqrest hMin hMop ?_ ?_
            · rcases hstc with hc | ⟨hc, -⟩
              · rw [hc]
                exact hst
              · exact Or.inr hc
            · intro hall
              obtain ⟨hw2, hf2⟩ := hwall hall hst
              refine ⟨hw2, ?_⟩
              intro m hm hop
              refine hf2 m ?_ ?_
              · rw [hM]
                exact hm
              · rw [hMop m hm]
                exact hop
        · -- open the cell, then the win check
          rename_i hnotmf
          split at h
          · simp at h
          · rename_i c1 heqs
            have hptin : g0.inRange pt := hq pt (List.mem_cons_self _ _)
            have hptM : pt ∉ M := by
              intro hmem
              rw [← hM] at hmem
              exact hnotmf (Or.inl hmem)
            obtain ⟨⟨grid2, rfl⟩, -, -, -, hslot⟩ := setOpened_spec cur pt c1 heqs
            have hMop1 : ∀ m ∈ M, Game.isOpened
                { cur with cellOpenedGrid := grid2 } m = g0.isOpened m := by
              intro m hm
              have hmin := hMin m hm
              rw [← hMop m hm]
              refine hslot m ?_ ?_ ?_ ?_ ?_
              · exact hptin.1
              · exact hptin.2.2.1
              · exact hmin.1
              · exact hmin.2.2.1
              · intro hc
                rw [hc] at hm
                exact hptM hm
            split at h
            · -- zero proximity: neighbours pushed
              split at h
              · simp at h
              · rename_i c2 heqw
                obtain ⟨⟨F, Q, sst, rfl⟩, -, -, hstc, hwall, -⟩ :=
                  winStep_spec { cur with cellOpenedGrid := grid2 } c2 heqw
                refine ih _ _ g' h hsz hM ?_ hMin hMop1 ?_ ?_
                · intro x hx
                  rcases List.mem_append.1 hx with hx | hx
                  · exact hqrest x hx
                  · obtain ⟨hx1, hx2⟩ := List.mem_filter.1 hx
                    have : Game.inRange { cur with cellOpenedGrid := grid2 } x :=
                      of_decide_eq_true hx2
                    obtain ⟨ha, hb, hc, hd⟩ := this
                    rw [hsz] at hb hd
                    exact ⟨ha, hb, hc, hd⟩
                · rcases hstc with hc | ⟨hc, -⟩
                  · rw [hc]
                    exact hst
                  · exact Or.inr hc
                · intro hall
                  obtain ⟨hw2, hf2⟩ := hwall hall hst
                  refine ⟨hw2, ?_⟩
                  intro m hm hop
                  refine hf2 m ?_ ?_
                  · rw [hM]
                    exact hm
                  · rw [hMop1 m hm]
                    exact hop
            · -- nonzero proximity: no pushes
              split at h
              · simp at h
              · rename_i c2 heqw
                obtain ⟨⟨F, Q, sst, rfl⟩, -, -, hstc, hwall, -⟩ :=
                  winStep_spec { cur with cellOpenedGrid := grid2 } c2 heqw
                refine ih _ rest g' h hsz hM hqrest hMin hMop1 ?_ ?_
                · rcases hstc with hc | ⟨hc, -⟩
                  · rw [hc]
                    exact hst
                  · exact Or.inr hc
                · intro hall
                  obtain ⟨hw2, hf2⟩ := hwall hall hst
                  refine ⟨hw2, ?_⟩
                  intro m hm hop
                  refine hf2 m ?_ ?_
                  · rw [hM]
                    exact hm
                  · rw [hMop1 m hm]
                    exact hop

/-! ### Claim theorems -/

/-- C5: on every board whose width equals its height (with the constructor's
grid shape) `is_opened` returns without an indexing error at every in-bounds
point; on the 2×1 board the in-bounds point `(1, 0)` reads `none`
(an `IndexError`), because the grid has `height` rows of `width` entries but
is indexed as `grid[x][y]`. -/
theorem c5_opened_indexing :
    (∀ (g : Game) (p : Point), g.WFGrid → g.size.1 = g.size.2 → g.inRange p →
      (g.isOpened p).isSome = true)
    ∧ (Game.init (2, 1) 1).inRange ((1 : Int), (0 : Int))
    ∧ (Game.init (2, 1) 1).isOpened ((1 : Int), (0 : Int)) = none := by
  refine ⟨?_, by decide, by decide⟩
  intro g p hwf hsq hin
  obtain ⟨hx0, hx1, hy0, hy1⟩ := hin
  unfold Game.isOpened
  rw [pyGet_of_nonneg _ _ hx0]
  have hxlt : p.1.toNat < g.cellOpenedGrid.length := by
    rw [hwf.1]
    omega
  rw [List.getElem?_eq_getElem hxlt]
  show (pyGet g.cellOpenedGrid[p.1.toNat] p.2).isSome = true
  have hrowmem : g.cellOpenedGrid[p.1.toNat] ∈ g.cellOpenedGrid :=
    List.getElem_mem hxlt
  have hrowlen := hwf.2 _ hrowmem
  rw [pyGet_of_nonneg _ _ hy0]
  have hylt : p.2.toNat < g.cellOpenedGrid[p.1.toNat].length := by
    rw [hrowlen]
    omega
  simp [List.getElem?_eq_getElem hylt]

/-- C5 witness: a concrete square board and in-bounds point on which the
universally quantified half of `c5_opened_indexing` applies. -/
theorem c5_opened_indexing_witness :
    ((Game.init (3, 3) 2).isOpened ((2 : Int), (1 : Int))).isSome = true :=
  c5_opened_indexing.1 (Game.init (3, 3) 2) (2, 1) (by decide) rfl (by decide)

/-- C6: `proximity_count(p)` is `-1` exactly on mines; otherwise it equals
the number of mines among the up-to-8 in-bounds neighbours of `p`, a value
between 0 and 8. -/
theorem c6_proximity_count (g : Game) (p : Point) (_hin : g.inRange p) :
    (g.proximityCount p = -1 ↔ p ∈ g.minePoints)
    ∧ (p ∉ g.minePoints →
        g.proximityCount p = ((specMineNeighbors g p).length : Int)
        ∧ 0 ≤ g.proximityCount p ∧ g.proximityCount p ≤ 8) := by
  constructor
  · constructor
    · intro h
      by_contra hm
      unfold Game.proximityCount at h
      rw [if_neg hm] at h
      omega
    · intro hm
      unfold Game.proximityCount
      rw [if_pos hm]
  · intro hm
    unfold Game.proximityCount
    rw [if_neg hm]
    have hcnt :
        ((proxOffsets.map fun d => (p.1 + d.1, p.2 + d.2)).countP
          fun q => decide (g.inRange q) && decide (q ∈ g.minePoints))
        = (specMineNeighbors g p).length := by
      rw [specMineNeighbors, ← List.countP_eq_length_filter]
      have hp : (p.1 + 0, p.2 + 0) = p := by
        simp
      simp only [proxOffsets, neighbors, neighborOffsets, List.map,
        List.countP_cons, List.countP_nil, hp]
      simp [hm]
    rw [hcnt]
    have hle : (specMineNeighbors g p).length ≤ 8 := by
      have h8 : (neighbors p).length = 8 := by
        simp [neighbors, neighborOffsets]
      calc (specMineNeighbors g p).length ≤ (neighbors p).length :=
            List.length_filter_le _ _
        _ = 8 := h8
    refine ⟨rfl, by positivity, ?_⟩
    exact_mod_cast hle

/-- C6 witness: the theorem applied to `genBoard22` (mine at `(0, 0)`) and
the in-bounds point `(1, 1)`, whose proximity count is 1. -/
theorem c6_proximity_count_witness :
    genBoard22.proximityCount ((1 : Int), (1 : Int))
      = ((specMineNeighbors genBoard22 (1, 1)).length : Int)
    ∧ genBoard22.proximityCount ((1 : Int), (1 : Int)) ≤ 8 :=
  ⟨((c6_proximity_count genBoard22 (1, 1) (by decide)).2 (by decide)).1,
    ((c6_proximity_count genBoard22 (1, 1) (by decide)).2 (by decide)).2.2⟩

/-- C10: on a playing board, opening an already-opened point only records
`last_click` and returns; a second consecutive `open` of the same point
leaves the whole state exactly as after the first call, with no error. -/
theorem c10_open_idempotent (g : Game) (p : Point)
    (hs : g.state = GameState.playing) (ho : g.isOpened p = some true) :
    g.openCell p = ({ g with lastClick := some p }, none)
    ∧ (g.openCell p).1.openCell p = g.openCell p := by
  have h1 : g.openCell p = ({ g with lastClick := some p }, none) := by
    unfold Game.openCell
    rw [if_pos hs]
    show (match ({ g with lastClick := some p } : Game).isOpened p with
      | none => (({ g with lastClick := some p } : Game), some PyErr.indexError)
      | some true => (({ g with lastClick := some p } : Game), none)
      | some false => _) = _
    rw [show ({ g with lastClick := some p } : Game).isOpened p = some true from ho]
  refine ⟨h1, ?_⟩
  rw [h1]
  unfold Game.openCell
  rw [if_pos (show ({ g with lastClick := some p } : Game).state = GameState.playing from hs)]
  show (match ({ g with lastClick := some p } : Game).isOpened p with
    | none => (({ g with lastClick := some p } : Game), some PyErr.indexError)
    | some true => (({ g with lastClick := some p } : Game), none)
    | some false => _) = _
  rw [show ({ g with lastClick := some p } : Game).isOpened p = some true from ho]

/-- C10 witness: `opened22` has `(1, 1)` opened; opening it twice more
changes nothing after the first of those calls. -/
theorem c10_open_idempotent_witness :
    opened22.openCell (1, 1) = ({ opened22 with lastClick := some (1, 1) }, none) :=
  (c10_open_idempotent opened22 (1, 1) (by decide) (by decide)).1

/-- C4: whenever `generate_board(excludedPoints)` completes without raising,
`minePositions` holds exactly `mineCount` distinct in-bounds coordinates,
none of which is an excluded point. -/
theorem c4_generation (g g' : Game) (dps : Option (List Point)) (o : Nat → Nat)
    (h : g.generateBoard dps o = (g', none)) :
    g'.minePoints.length = g.mineCount ∧ g'.minePoints.Nodup
    ∧ ∀ m ∈ g'.minePoints, g.inRange m ∧ ∀ l, dps = some l → m ∉ l := by
  obtain ⟨h1, h2, h3, -, -⟩ := generateBoard_ok_spec g g' dps o h
  exact ⟨h1, h2, h3⟩

/-- C4 witness: the 2×2 board generated with `(0, 0)` excluded places its
single mine at an in-bounds point other than `(0, 0)`. -/
theorem c4_generation_witness :
    (((Game.init (2, 2) 1).generateBoard (some [((0 : Int), (0 : Int))])
        fun _ => 0).1.minePoints.length = 1)
    ∧ ∀ m ∈ ((Game.init (2, 2) 1).generateBoard (some [((0 : Int), (0 : Int))])
        fun _ => 0).1.minePoints,
        (Game.init (2, 2) 1).inRange m
        ∧ ∀ l, (some [((0 : Int), (0 : Int))] : Option (List Point)) = some l → m ∉ l := by
  have h := c4_generation (Game.init (2, 2) 1)
    (((Game.init (2, 2) 1).generateBoard (some [((0 : Int), (0 : Int))])
      fun _ => 0).1)
    (some [((0 : Int), (0 : Int))]) (fun _ => 0) (Prod.ext rfl (by decide))
  exact ⟨h.1, h.2.2⟩

/-- C9 (amended): `generate_board` raises `randint`'s `ValueError` whenever
`mineCount` strictly exceeds the number of eligible coordinates (board
points not excluded); with `mineCount` equal to the number of eligible
points the placement completes (see the counterexample). -/
theorem c9_overfull_amended (g : Game) (dps : Option (List Point)) (o : Nat → Nat)
    (h : (g.eligiblePoints dps).length < g.mineCount) :
    (g.generateBoard dps o).2 = some PyErr.valueError := by
  unfold Game.generateBoard
  rcases hgen : genLoop o 0 g.mineCount (g.eligiblePoints dps) [] with
    ⟨mines, pool, err⟩
  have herr := genLoop_exhausted o g.mineCount 0 _ [] h
  rw [hgen] at herr
  simp at herr
  subst herr
  rfl

/-- C9 witness: the 1×1 board with two mines has 1 eligible point, and
generation raises `ValueError`. -/
theorem c9_overfull_amended_witness :
    ((Game.init (1, 1) 2).generateBoard none fun _ => 0).2
      = some PyErr.valueError :=
  c9_overfull_amended (Game.init (1, 1) 2) none (fun _ => 0) (by decide)

/-- C8 (amended): `generate_board` never inspects the current state, so a
call on an already-generated (`Playing`/`Won`/`Lost`) board is accepted
exactly as on a fresh board — same error behaviour and same mines — and a
completing call repopulates `minePositions` with `mineCount` fresh mines and
resets the state to `Playing`. -/
theorem c8_regenerate_amended (g : Game) (dps : Option (List Point)) (o : Nat → Nat)
    (_h : g.state = GameState.playing ∨ g.state = GameState.won
      ∨ g.state = GameState.lost) :
    ((g.generateBoard dps o).2
        = (({ g with state := GameState.idle } : Game).generateBoard dps o).2)
    ∧ ((g.generateBoard dps o).1.minePoints
        = (({ g with state := GameState.idle } : Game).generateBoard dps o).1.minePoints)
    ∧ ((g.generateBoard dps o).2 = none →
        (g.generateBoard dps o).1.state = GameState.playing
        ∧ (g.generateBoard dps o).1.minePoints.length = g.mineCount) := by
  obtain ⟨h1, h2⟩ := generateBoard_state_blind g { g with state := GameState.idle }
    dps o rfl rfl
  refine ⟨h1, h2, ?_⟩
  intro hok
  rcases hres : g.generateBoard dps o with ⟨g2, err⟩
  rw [hres] at hok
  subst hok
  obtain ⟨hlen, -, -, hst, -⟩ := generateBoard_ok_spec g g2 dps o hres
  exact ⟨hst, hlen⟩

/-- C8 witness: applied to the already-playing `genBoard22`; a second
generation behaves as on a fresh board and completes. -/
theorem c8_regenerate_amended_witness :
    (genBoard22.generateBoard none fun _ => 1).2
      = (({ genBoard22 with state := GameState.idle } : Game).generateBoard none
          fun _ => 1).2 :=
  (c8_regenerate_amended genBoard22 none (fun _ => 1) (Or.inl (by decide))).1

/-- C3 (amended): once the state is `Won` or `Lost`, `open` raises
`ValueError` without mutating anything and the four mark operations leave
`openedMask` and `minePositions` untouched; but `generate_board` still
repopulates `minePositions` (see the counterexample) and `flag` is still
accepted. -/
theorem c3_terminal_amended (g : Game) (p : Point)
    (h : g.state = GameState.won ∨ g.state = GameState.lost) :
    g.openCell p = (g, some PyErr.valueError)
    ∧ (g.flag p).1.cellOpenedGrid = g.cellOpenedGrid
    ∧ (g.flag p).1.minePoints = g.minePoints
    ∧ (g.unflag p).cellOpenedGrid = g.cellOpenedGrid
    ∧ (g.unflag p).minePoints = g.minePoints
    ∧ (g.question p).cellOpenedGrid = g.cellOpenedGrid
    ∧ (g.question p).minePoints = g.minePoints
    ∧ (g.unquestion p).cellOpenedGrid = g.cellOpenedGrid
    ∧ (g.unquestion p).minePoints = g.minePoints := by
  have hns : ¬ g.state = GameState.playing := by
    rcases h with h | h <;> rw [h] <;> intro hc <;> exact GameState.noConfusion hc
  refine ⟨?_, ?_, ?_, rfl, rfl, rfl, rfl, rfl, rfl⟩
  · unfold Game.openCell
    rw [if_neg hns]
  · unfold Game.flag
    cases hio : g.isOpened p with
    | none => rfl
    | some b => cases b <;> rfl
  · unfold Game.flag
    cases hio : g.isOpened p with
    | none => rfl
    | some b => cases b <;> rfl

/-- C3 witness: the amended statement applied to the lost board `lost22`. -/
theorem c3_terminal_amended_witness :
    lost22.openCell (0, 1) = (lost22, some PyErr.valueError) :=
  (c3_terminal_amended lost22 (0, 1) (Or.inr (by decide))).1

/-- C7 (amended): in every reachable state no coordinate is simultaneously
flagged and questioned, and `flag` is a strict no-op on a coordinate that
reads as opened; but `question` adds any coordinate unconditionally (even an
opened one — see the counterexample), so flagged/questioned positions are
not in general limited to unopened, in-bounds coordinates. -/
theorem c7_marks_amended :
    (∀ g : Game, Reachable g →
      ∀ p : Point, ¬(p ∈ g.flaggedPoints ∧ p ∈ g.questionedPoints))
    ∧ (∀ (g : Game) (p : Point), g.isOpened p = some true → g.flag p = (g, none)) := by
  constructor
  · intro g hr
    exact (reachable_inv g hr).1
  · intro g p hop
    unfold Game.flag
    rw [hop]

/-- C7 witness: mutual exclusion at a concrete point of the reachable board
`cexC7Board`, and `flag` as a no-op on the opened cell `(1, 1)` of
`opened22`. -/
theorem c7_marks_amended_witness :
    ¬(((0 : Int), (0 : Int)) ∈ cexC7Board.flaggedPoints
        ∧ ((0 : Int), (0 : Int)) ∈ cexC7Board.questionedPoints)
    ∧ opened22.flag (1, 1) = (opened22, none) :=
  ⟨c7_marks_amended.1 cexC7Board
      (Reachable.question opened22 (1, 1) reach_opened22) (0, 0),
    c7_marks_amended.2 opened22 (1, 1) (by decide)⟩

/-- C2 (amended): on every reachable board, `is_won()` returns `True`
exactly when every in-bounds non-mine coordinate is opened and the state is
not `Lost`; and when an in-bounds `open` call on a board with in-bounds
mines opens the last non-mine cell, the state transitions to `Won` and every
mine coordinate **that was not already opened** is flagged afterwards (a
mine can sit on an opened cell only after regeneration — see the
counterexample — and such a mine is skipped by `flag`). -/
theorem c2_win_amended :
    (∀ g : Game, Reachable g →
      (g.isWon.2 = Except.ok true ↔ (g.allNonMineOpened ∧ g.state ≠ GameState.lost)))
    ∧ (∀ (g g' : Game) (p : Point),
        g.inRange p → (∀ m ∈ g.minePoints, g.inRange m) →
        g.openCell p = (g', none) →
        ¬ g.allNonMineOpened → g'.allNonMineOpened →
        g'.state = GameState.won
        ∧ ∀ m ∈ g.minePoints, g.isOpened m ≠ some true → m ∈ g'.flaggedPoints) := by
  constructor
  · intro g hr
    rcases isWon_cases g with ⟨hst, hiw⟩ | ⟨hst, hiw⟩ | ⟨hw, hl, hrest⟩
    · rw [hiw]
      constructor
      · intro _
        refine ⟨(reachable_inv g hr).2 hst, ?_⟩
        rw [hst]
        intro hc
        exact GameState.noConfusion hc
      · intro _
        rfl
    · rw [hiw]
      constructor
      · intro hc
        exact absurd hc (by simp)
      · intro hc
        exact absurd hst hc.2
    · rcases hrest with ⟨hall, hiw⟩ | ⟨hnall, -, hiw2⟩
      · rw [hiw]
        exact iff_of_true rfl ⟨hall, hl⟩
      · refine iff_of_false hiw2 ?_
        intro hc
        exact hnall hc.1
  · intro g g' p hin hMin hok hpre hpost
    obtain ⟨hs, hcases⟩ := openCell_ok_cases g p g' hok
    rcases hcases with hg' | hg' | hloop
    · subst hg'
      exact absurd hpost hpre
    · subst hg'
      exact absurd hpost hpre
    · refine openLoop_won_flags g g.minePoints _ _ [p] g' hloop rfl rfl ?_ hMin
        (fun m _ => rfl) (Or.inl hs) ?_ hpost
      · intro x hx
        rw [List.mem_singleton] at hx
        subst hx
        exact hin
      · intro hall
        exact absurd hall hpre

/-- C2 witness: the `isWon` characterisation applied to the concrete
reachable won board `won22`. -/
theorem c2_win_amended_witness : won22.isWon.2 = Except.ok true :=
  (c2_win_amended.1 won22
      (Reachable.openCell preWin22 (1, 0) reach_preWin22 (by decide))).mpr
    ⟨by decide, by decide⟩

/-- C1 counterexample: `cexC1Board` is a reachable playing board (3×3, zero
mines, nothing flagged) on which `(0, 0)` is in bounds, unopened, not a mine
and not flagged, and `(2, 2)` lies in the claimed region of `(0, 0)` (the
connected zero-proximity region plus border, avoiding flags) and is neither
a mine nor flagged — yet `open((0, 0))` returns without error leaving
`(2, 2)` unopened, because `(2, 2)` is only reachable through the cells
opened by an earlier `open((1, 1))` call and the flood fill does not expand
through already-opened cells. -/
theorem c1_flood_counterexample :
    Reachable cexC1Board
    ∧ cexC1Board.state = GameState.playing
    ∧ cexC1Board.inRange ((0 : Int), (0 : Int))
    ∧ cexC1Board.isOpened (0, 0) = some false
    ∧ ((0 : Int), (0 : Int)) ∉ cexC1Board.minePoints
    ∧ ((0 : Int), (0 : Int)) ∉ cexC1Board.flaggedPoints
    ∧ specRegion cexC1Board (0, 0) (2, 2)
    ∧ ((2 : Int), (2 : Int)) ∉ cexC1Board.minePoints
    ∧ ((2 : Int), (2 : Int)) ∉ cexC1Board.flaggedPoints
    ∧ (cexC1Board.openCell (0, 0)).2 = none
    ∧ (cexC1Board.openCell (0, 0)).1.isOpened (2, 2) = some false := by
  have hreach : Reachable cexC1Board :=
    Reachable.unquestion _ _ (Reachable.unquestion _ _ (Reachable.openCell _ (1, 1)
      (Reachable.flag _ (2, 2) (Reachable.flag _ (0, 0)
        (Reachable.generate _ none (fun _ => 0) (Reachable.init (3, 3) 0) (by decide))))
      (by decide)))
  have hstep1 : SpecRegionStep cexC1Board (0, 0) (1, 1) :=
    SpecRegionStep.mk _ _ (by decide) (by decide) (by decide) (by decide)
  have hstep2 : SpecRegionStep cexC1Board (1, 1) (2, 2) :=
    SpecRegionStep.mk _ _ (by decide) (by decide) (by decide) (by decide)
  exact ⟨hreach, by decide, by decide, by decide, by decide, by decide,
    Relation.ReflTransGen.head hstep1 (Relation.ReflTransGen.single hstep2),
    by decide, by decide, by decide, by decide⟩

/-- C2 counterexample: `preWin22` is a reachable playing board (obtained by
regenerating the mines of a partially played 2×2 board, which moves the mine
onto the already-opened cell `(1, 1)`).  Opening `(1, 0)` opens the last
non-mine cell and the state becomes `won`, but the mine `(1, 1)` is **not**
in `flaggedPositions` afterwards, because `flag` skips opened points. -/
theorem c2_win_counterexample :
    Reachable preWin22
    ∧ preWin22.state = GameState.playing
    ∧ ¬ preWin22.allNonMineOpened
    ∧ (preWin22.openCell (1, 0)).2 = none
    ∧ won22.allNonMineOpened
    ∧ won22.state = GameState.won
    ∧ ((1 : Int), (1 : Int)) ∈ won22.minePoints
    ∧ ((1 : Int), (1 : Int)) ∉ won22.flaggedPoints :=
  ⟨reach_preWin22, by decide, by decide, by decide, by decide, by decide,
    by decide, by decide⟩

/-- C3 counterexample: `lost22` is a reachable lost board, yet
`generate_board` is accepted on it and repopulates `minePositions`
(no operation guard exists in the source), and `flag` still mutates
`flaggedPositions`. -/
theorem c3_terminal_counterexample :
    Reachable lost22
    ∧ lost22.state = GameState.lost
    ∧ (lost22.generateBoard (some [((0 : Int), (0 : Int))]) fun _ => 0).2 = none
    ∧ (lost22.generateBoard (some [((0 : Int), (0 : Int))]) fun _ => 0).1.minePoints
        ≠ lost22.minePoints
    ∧ (lost22.flag (0, 1)).2 = none
    ∧ (lost22.flag (0, 1)).1.flaggedPoints ≠ lost22.flaggedPoints :=
  ⟨reach_lost22, by decide, by decide, by decide, by decide, by decide⟩

/-- C7 counterexample: `question` performs no opened check, so an opened,
in-bounds cell of a reachable board ends up in `questionedPositions`,
contradicting "can only contain unopened coordinates". -/
theorem c7_marks_counterexample :
    Reachable cexC7Board
    ∧ cexC7Board.inRange ((1 : Int), (1 : Int))
    ∧ cexC7Board.isOpened (1, 1) = some true
    ∧ ((1 : Int), (1 : Int)) ∈ cexC7Board.questionedPoints :=
  ⟨Reachable.question opened22 (1, 1) reach_opened22, by decide, by decide,
    by decide⟩

/-- C8 counterexample: `genBoard22` is already in the `Playing` state, yet a
second `generate_board` call raises nothing and repopulates the mines
(the source has no already-generated check). -/
theorem c8_regenerate_counterexample :
    Reachable genBoard22
    ∧ genBoard22.state = GameState.playing
    ∧ (genBoard22.generateBoard none fun _ => 1).2 = none
    ∧ (genBoard22.generateBoard none fun _ => 1).1.minePoints
        ≠ genBoard22.minePoints
    ∧ (genBoard22.generateBoard none fun _ => 1).1.minePoints.length
        = genBoard22.mineCount :=
  ⟨reach_genBoard22, by decide, by decide, by decide, by decide⟩

/-- C9 counterexample: on the 1×1 board with `mineCount = 1` we have
`mineCount ≥ width*height`, yet `generate_board` completes mine placement
without error (for an empty exclusion list and for `None`): the `randint`
failure only occurs when the pool is exhausted *before* the last draw, i.e.
when `mineCount` strictly exceeds the number of eligible points. -/
theorem c9_overfull_counterexample :
    (Game.init (1, 1) 1).size.1 * (Game.init (1, 1) 1).size.2
      ≤ (Game.init (1, 1) 1).mineCount
    ∧ ((Game.init (1, 1) 1).generateBoard none fun _ => 0).2 = none
    ∧ ((Game.init (1, 1) 1).generateBoard (some []) fun _ => 0).2 = none
    ∧ ((Game.init (1, 1) 1).generateBoard none fun _ => 0).1.minePoints.length = 1 :=
  ⟨by decide, by decide, by decide, by decide⟩

/-! ### The flood-fill characterisation (C1) -/

theorem inRange_congr (g1 g2 : Game) (hsz : g1.size = g2.size) (q : Point) :
    g1.inRange q ↔ g2.inRange q := by
  unfold Game.inRange
  rw [hsz]

theorem proximityCount_congr (g1 g2 : Game) (q : Point)
    (hsz : g1.size = g2.size) (hm : g1.minePoints = g2.minePoints) :
    g1.proximityCount q = g2.proximityCount q := by
  have hfun : (fun r => decide (g1.inRange r) && decide (r ∈ g1.minePoints))
      = (fun r => decide (g2.inRange r) && decide (r ∈ g2.minePoints)) := by
    funext r
    rw [hm, decide_eq_decide.2 (inRange_congr g1 g2 hsz r)]
  unfold Game.proximityCount
  rw [hfun, hm]

/-- After a successful flood fill every coordinate the expansion relation
reaches from the click, other than mines and originally flagged points,
reads as opened.  `g0` is the board at the start of the `open` call, `gf`
the final board; `hB` says that around every opened expandable point all
in-range neighbours are opened, mines, or originally flagged. -/
theorem flood_complete (g0 gf : Game) (p0 : Point) (hp0 : g0.inRange p0)
    (hopend : gf.isOpened p0 = some true)
    (hB : ∀ d, g0.inRange d → gf.isOpened d = some true → g0.expandable d →
      ∀ n ∈ neighbors d, g0.inRange n →
        (gf.isOpened n = some true ∨ n ∈ g0.minePoints ∨ n ∈ g0.flaggedPoints)) :
    ∀ r, floodReach g0 p0 r →
      (r = p0 ∨ g0.inRange r)
      ∧ (r ∉ g0.minePoints → r ∉ g0.flaggedPoints → gf.isOpened r = some true) := by
  intro r hr
  induction hr with
  | refl => exact ⟨Or.inl rfl, fun _ _ => hopend⟩
  | @tail b c hab hbc ih =>
    rcases hbc with ⟨hexp, hn, hinc⟩
    obtain ⟨hbr, hbo⟩ := ih
    have hbin : g0.inRange b := by
      rcases hbr with rfl | hbr
      · exact hp0
      · exact hbr
    have hbof : gf.isOpened b = some true := hbo hexp.2.1 hexp.2.2.1
    refine ⟨Or.inr hinc, ?_⟩
    intro hcm hcf
    rcases hB b hbin hbof hexp c hn hinc with hc | hc | hc
    · exact hc
    · exact absurd hc hcm
    · exact absurd hc hcf

/-- Invariant bundle of the flood-fill loop of `open`, relative to the board
`g0` seen at the start of the call and the clicked point `p0` (not a mine,
not flagged).  A successful run preserves the flags of `g0`, opens no cell
outside the reached good points, keeps every previously open cell open,
leaves `p0` open, and around every opened expandable point every in-range
neighbour ends opened, a mine, or originally flagged. -/
theorem openLoop_flood (g0 : Game) (p0 : Point)
    (hp0m : p0 ∉ g0.minePoints) (hp0f : p0 ∉ g0.flaggedPoints) :
    ∀ (fuel : Nat) (cur : Game) (q : List Point) (g' : Game),
      openLoop fuel cur q = (g', none) →
      cur.size = g0.size →
      cur.minePoints = g0.minePoints →
      (∀ x ∈ q, g0.inRange x) →
      (∀ x ∈ q, floodReach g0 p0 x) →
      (∀ x ∈ g0.flaggedPoints, x ∈ cur.flaggedPoints) →
      (∀ x ∈ cur.flaggedPoints, x ∈ g0.flaggedPoints ∨ x ∈ g0.minePoints) →
      (∀ x, cur.isOpened x = none ↔ g0.isOpened x = none) →
      (∀ x, g0.isOpened x = some true → cur.isOpened x = some true) →
      (∀ x, g0.inRange x → cur.isOpened x = some true →
        g0.isOpened x = some true
        ∨ (floodReach g0 p0 x ∧ x ∉ g0.minePoints ∧ x ∉ g0.flaggedPoints)) →
      (∀ d, g0.inRange d → cur.isOpened d = some true → g0.expandable d →
        ∀ n ∈ neighbors d, g0.inRange n →
          (n ∈ q ∨ cur.isOpened n = some true
            ∨ n ∈ g0.minePoints ∨ n ∈ g0.flaggedPoints)) →
      (cur.isOpened p0 = some true ∨ p0 ∈ q) →
      ((∀ x ∈ g0.flaggedPoints, x ∈ g'.flaggedPoints)
        ∧ (∀ x, g'.isOpened x = none ↔ g0.isOpened x = none)
        ∧ (∀ x, g0.isOpened x = some true → g'.isOpened x = some true)
        ∧ (∀ x, g0.inRange x → g'.isOpened x = some true →
            g0.isOpened x = some true
            ∨ (floodReach g0 p0 x ∧ x ∉ g0.minePoints ∧ x ∉ g0.flaggedPoints))
        ∧ (∀ d, g0.inRange d → g'.isOpened d = some true → g0.expandable d →
            ∀ n ∈ neighbors d, g0.inRange n →
              (g'.isOpened n = some true ∨ n ∈ g0.minePoints ∨ n ∈ g0.flaggedPoints))
        ∧ g'.isOpened p0 = some true) := by
  intro fuel
  induction fuel with
  | zero =>
    intro cur q g' h
    rw [openLoop] at h
    simp at h
  | succ fuel ih =>
    intro cur q g' h hsz hM hQI hQR hFL hFU hNO hMO hSO hB hA
    cases q with
    | nil =>
      rw [openLoop] at h
      have h2 : (cur, (none : Option PyErr)) = (g', none) := h
      rw [← (Prod.mk.inj h2).1]
      refine ⟨hFL, hNO, hMO, hSO, ?_, ?_⟩
      · intro d hd hod hexpd n hn hnin
        rcases hB d hd hod hexpd n hn hnin with hc | hc | hc | hc
        · exact absurd hc (List.not_mem_nil n)
        · exact Or.inl hc
        · exact Or.inr (Or.inl hc)
        · exact Or.inr (Or.inr hc)
      · rcases hA with hc | hc
        · exact hc
        · exact absurd hc (List.not_mem_nil p0)
    | cons pt rest =>
      have hQIr : ∀ x ∈ rest, g0.inRange x :=
        fun x hx => hQI x (List.mem_cons_of_mem _ hx)
      have hQRr : ∀ x ∈ rest, floodReach g0 p0 x :=
        fun x hx => hQR x (List.mem_cons_of_mem _ hx)
      rw [openLoop] at h
      split at h
      · simp at h
      · rename_i hio
        refine ih cur rest g' h hsz hM hQIr hQRr hFL hFU hNO hMO hSO ?_ ?_
        · intro d hd hod hexpd n hn hnin
          rcases hB d hd hod hexpd n hn hnin with hc | hc | hc | hc
          · rcases List.mem_cons.1 hc with rfl | hc2
            · exact Or.inr (Or.inl hio)
            · exact Or.inl hc2
          · exact Or.inr (Or.inl hc)
          · exact Or.inr (Or.inr (Or.inl hc))
          · exact Or.inr (Or.inr (Or.inr hc))
        · rcases hA with hc | hc
          · exact Or.inl hc
          · rcases List.mem_cons.1 hc with heq | hc2
            · rw [heq]
              exact Or.inl hio
            · exact Or.inr hc2
      · rename_i hio
        split at h
        · -- the popped point is a mine or flagged: only the win check runs
          rename_i hmf
          split at h
          · simp at h
          · rename_i c2 heqw
            obtain ⟨⟨F, Qm, sst, rfl⟩, -, hflm, -, -, hflu⟩ := winStep_spec cur c2 heqw
            refine ih _ rest g' h hsz hM hQIr hQRr ?_ ?_ hNO hMO hSO ?_ ?_
            · exact fun x hx => hflm x (hFL x hx)
            · intro x hx
              rcases hflu x hx with hc | hc
              · exact hFU x hc
              · right
                rw [← hM]
                exact hc
            · intro d hd hod hexpd n hn hnin
              rcases hB d hd hod hexpd n hn hnin with hc | hc | hc | hc
              · rcases List.mem_cons.1 hc with rfl | hc2
                · rcases hmf with hc3 | hc3
                  · refine Or.inr (Or.inr (Or.inl ?_))
                    rw [← hM]
                    exact hc3
                  · rcases hFU n hc3 with hc4 | hc4
                    · exact Or.inr (Or.inr (Or.inr hc4))
                    · exact Or.inr (Or.inr (Or.inl hc4))
                · exact Or.inl hc2
              · exact Or.inr (Or.inl hc)
              · exact Or.inr (Or.inr (Or.inl hc))
              · exact Or.inr (Or.inr (Or.inr hc))
            · rcases hA with hc | hc
              · exact Or.inl hc
              · rcases List.mem_cons.1 hc with heq | hc2
                · exfalso
                  rcases hmf with hc3 | hc3
                  · rw [← heq, hM] at hc3
                    exact hp0m hc3
                  · rw [← heq] at hc3
                    rcases hFU p0 hc3 with hc4 | hc4
                    · exact hp0f hc4
                    · exact hp0m hc4
                · exact Or.inr hc2
        · -- open the point, push neighbours on zero proximity, win check
          rename_i hnmf
          split at h
          · simp at h
          · rename_i c1 heqs
            have hptin : g0.inRange pt := hQI pt (List.mem_cons_self _ _)
            have hptr : floodReach g0 p0 pt := hQR pt (List.mem_cons_self _ _)
            have hptm : pt ∉ g0.minePoints := by
              intro hmem
              refine hnmf (Or.inl ?_)
              rw [hM]
              exact hmem
            have hptf : pt ∉ g0.flaggedPoints :=
              fun hmem => hnmf (Or.inr (hFL pt hmem))
            have hptg0 : g0.isOpened pt = some false := by
              rcases hx : g0.isOpened pt with _ | b
              · have h2 := (hNO pt).2 hx
                rw [hio] at h2
                simp at h2
              · cases b
                · rfl
                · have h2 := hMO pt hx
                  rw [hio] at h2
                  simp at h2
            obtain ⟨⟨grid2, rfl⟩, hopn, hmo1, hno1, hslot⟩ :=
              setOpened_spec cur pt c1 heqs
            have hNO1 : ∀ x, Game.isOpened { cur with cellOpenedGrid := grid2 } x = none
                ↔ g0.isOpened x = none :=
              fun x => (hno1 x).trans (hNO x)
            have hMO1 : ∀ x, g0.isOpened x = some true →
                Game.isOpened { cur with cellOpenedGrid := grid2 } x = some true :=
              fun x hx => hmo1 x (hMO x hx)
            have hSO1 : ∀ x, g0.inRange x →
                Game.isOpened { cur with cellOpenedGrid := grid2 } x = some true →
                g0.isOpened x = some true
                ∨ (floodReach g0 p0 x ∧ x ∉ g0.minePoints ∧ x ∉ g0.flaggedPoints) := by
              intro x hxin hx
              by_cases hxp : x = pt
              · subst hxp
                exact Or.inr ⟨hptr, hptm, hptf⟩
              · have heqo := hslot x hptin.1 hptin.2.2.1 hxin.1 hxin.2.2.1 hxp
                rw [heqo] at hx
                exact hSO x hxin hx
            split at h
            · -- zero proximity: the in-range neighbours are pushed
              rename_i hpz
              have hpc : Game.proximityCount { cur with cellOpenedGrid := grid2 } pt
                  = g0.proximityCount pt :=
                proximityCount_congr _ g0 pt hsz hM
              have hexp : g0.expandable pt := by
                refine ⟨hptg0, hptm, hptf, ?_⟩
                rw [← hpc]
                exact hpz
              split at h
              · simp at h
              · rename_i c2 heqw
                obtain ⟨⟨F, Qm, sst, rfl⟩, -, hflm, -, -, hflu⟩ :=
                  winStep_spec { cur with cellOpenedGrid := grid2 } c2 heqw
                refine ih _ _ g' h hsz hM ?_ ?_ ?_ ?_ hNO1 hMO1 hSO1 ?_ ?_
                · intro x hx
                  rcases List.mem_append.1 hx with hx | hx
                  · exact hQIr x hx
                  · obtain ⟨hx1, hx2⟩ := List.mem_filter.1 hx
                    have hcin : Game.inRange { cur with cellOpenedGrid := grid2 } x :=
                      of_decide_eq_true hx2
                    obtain ⟨ha, hb, hc, hd2⟩ := hcin
                    rw [hsz] at hb hd2
                    exact ⟨ha, hb, hc, hd2⟩
                · intro x hx
                  rcases List.mem_append.1 hx with hx | hx
                  · exact hQRr x hx
                  · obtain ⟨hx1, hx2⟩ := List.mem_filter.1 hx
                    have hcin : Game.inRange { cur with cellOpenedGrid := grid2 } x :=
                      of_decide_eq_true hx2
                    obtain ⟨ha, hb, hc, hd2⟩ := hcin
                    rw [hsz] at hb hd2
                    exact Relation.ReflTransGen.tail hptr
                      (FloodStep.mk pt x hexp hx1 ⟨ha, hb, hc, hd2⟩)
                · exact fun x hx => hflm x (hFL x hx)
                · intro x hx
                  rcases hflu x hx with hc | hc
                  · exact hFU x hc
                  · right
                    rw [← hM]
                    exact hc
                · intro d hd hod hexpd n hn hnin
                  by_cases hdp : d = pt
                  · subst hdp
                    refine Or.inl (List.mem_append.2 (Or.inr ?_))
                    refine List.mem_filter.2 ⟨hn, ?_⟩
                    have hcur : cur.inRange n := by
                      unfold Game.inRange
                      rw [hsz]
                      exact hnin
                    exact decide_eq_true hcur
                  · have hod2 : Game.isOpened { cur with cellOpenedGrid := grid2 } d
                        = some true := hod
                    have heqo := hslot d hptin.1 hptin.2.2.1 hd.1 hd.2.2.1 hdp
                    rw [heqo] at hod2
                    rcases hB d hd hod2 hexpd n hn hnin with hc | hc | hc | hc
                    · rcases List.mem_cons.1 hc with rfl | hc2
                      · exact Or.inr (Or.inl hopn)
                      · exact Or.inl (List.mem_append.2 (Or.inl hc2))
                    · exact Or.inr (Or.inl (hmo1 n hc))
                    · exact Or.inr (Or.inr (Or.inl hc))
                    · exact Or.inr (Or.inr (Or.inr hc))
                · rcases hA with hc | hc
                  · exact Or.inl (hmo1 p0 hc)
                  · rcases List.mem_cons.1 hc with heq | hc2
                    · rw [heq]
                      exact Or.inl hopn
                    · exact Or.inr (List.mem_append.2 (Or.inl hc2))
            · -- nonzero proximity: nothing is pushed
              rename_i hpz
              split at h
              · simp at h
              · rename_i c2 heqw
                obtain ⟨⟨F, Qm, sst, rfl⟩, -, hflm, -, -, hflu⟩ :=
                  winStep_spec { cur with cellOpenedGrid := grid2 } c2 heqw
                refine ih _ rest g' h hsz hM hQIr hQRr ?_ ?_ hNO1 hMO1 hSO1 ?_ ?_
                · exact fun x hx => hflm x (hFL x hx)
                · intro x hx
                  rcases hflu x hx with hc | hc
                  · exact hFU x hc
                  · right
                    rw [← hM]
                    exact hc
                · intro d hd hod hexpd n hn hnin
                  by_cases hdp : d = pt
                  · subst hdp
                    exfalso
                    have hpc : Game.proximityCount { cur with cellOpenedGrid := grid2 } d
                        = g0.proximityCount d :=
                      proximityCount_congr _ g0 d hsz hM
                    exact hpz (hpc.trans hexpd.2.2.2)
                  · have hod2 : Game.isOpened { cur with cellOpenedGrid := grid2 } d
                        = some true := hod
                    have heqo := hslot d hptin.1 hptin.2.2.1 hd.1 hd.2.2.1 hdp
                    rw [heqo] at hod2
                    rcases hB d hd hod2 hexpd n hn hnin with hc | hc | hc | hc
                    · rcases List.mem_cons.1 hc with rfl | hc2
                      · exact Or.inr (Or.inl hopn)
                      · exact Or.inl hc2
                    · exact Or.inr (Or.inl (hmo1 n hc))
                    · exact Or.inr (Or.inr (Or.inl hc))
                    · exact Or.inr (Or.inr (Or.inr hc))
                · rcases hA with hc | hc
                  · exact Or.inl (hmo1 p0 hc)
                  · rcases List.mem_cons.1 hc with heq | hc2
                    · rw [heq]
                      exact Or.inl hopn
                    · exact Or.inr hc2

/-- C1 (corrected): on a playing board, whenever an `open` call on an
in-bounds, unopened, unflagged non-mine point `p` returns without raising
(it can raise `IndexError` on non-square boards through the transposed grid
indexing, see C5), it opens exactly the coordinates reachable from `p` by
expansion steps through zero-proximity points that were unopened, unflagged
non-mines at the start of the call — mines and flagged coordinates are
never opened, every previously open cell stays open, and no flag of the
original board is removed.  (The spec's claimed region is larger: expansion
is also blocked by already-opened zero cells, not only by flags; see the
counterexample.) -/
theorem c1_flood_amended (g g' : Game) (p : Point)
    (hs : g.state = GameState.playing) (hin : g.inRange p)
    (hop : g.isOpened p = some false)
    (hmn : p ∉ g.minePoints) (hfl : p ∉ g.flaggedPoints)
    (hok : g.openCell p = (g', none)) :
    (∀ q, g.inRange q →
      (g'.isOpened q = some true ↔
        g.isOpened q = some true
        ∨ (floodReach g p q ∧ q ∉ g.minePoints ∧ q ∉ g.flaggedPoints)))
    ∧ (∀ q ∈ g.flaggedPoints, q ∈ g'.flaggedPoints) := by
  unfold Game.openCell at hok
  rw [if_pos hs] at hok
  dsimp only at hok
  split at hok
  · rename_i hx
    have hx2 : g.isOpened p = none := hx
    rw [hop] at hx2
    simp at hx2
  · rename_i hx
    have hx2 : g.isOpened p = some true := hx
    rw [hop] at hx2
    simp at hx2
  · rw [if_neg (show p ∉ ({ g with lastClick := some p } : Game).flaggedPoints from hfl)]
      at hok
    rw [if_neg (show p ∉ ({ g with lastClick := some p } : Game).minePoints from hmn)]
      at hok
    have hres := openLoop_flood g p hmn hfl _ _ _ g' hok rfl rfl
      (fun x hx => by
        rw [List.mem_singleton] at hx
        rw [hx]
        exact hin)
      (fun x hx => by
        rw [List.mem_singleton] at hx
        rw [hx]
        exact Relation.ReflTransGen.refl)
      (fun x hx => hx) (fun x hx => Or.inl hx) (fun x => Iff.rfl)
      (fun x hx => hx) (fun x _ hx => Or.inl hx)
      (fun d _ hod hexpd n _ _ => by
        have hod2 : g.isOpened d = some true := hod
        rw [hexpd.1] at hod2
        simp at hod2)
      (Or.inr (List.mem_singleton.2 rfl))
    obtain ⟨hFLc, hNOc, hMOc, hSOc, hBc, hPc⟩ := hres
    refine ⟨?_, hFLc⟩
    intro q hq
    constructor
    · exact fun h2 => hSOc q hq h2
    · intro h2
      rcases h2 with h2 | ⟨hr, hqm, hqf⟩
      · exact hMOc q h2
      · exact (flood_complete g g' p hin hPc hBc q hr).2 hqm hqf

/-- C1 witness: the amended theorem applied to the generated zero-mine 3×3
board and the click `(1, 1)`. -/
theorem c1_flood_amended_witness :
    (∀ q, zero33.inRange q →
      ((zero33.openCell ((1 : Int), (1 : Int))).1.isOpened q = some true ↔
        zero33.isOpened q = some true
        ∨ (floodReach zero33 ((1 : Int), (1 : Int)) q
            ∧ q ∉ zero33.minePoints ∧ q ∉ zero33.flaggedPoints)))
    ∧ (∀ q ∈ zero33.flaggedPoints,
        q ∈ (zero33.openCell ((1 : Int), (1 : Int))).1.flaggedPoints) :=
  c1_flood_amended zero33 (zero33.openCell ((1 : Int), (1 : Int))).1
    ((1 : Int), (1 : Int)) (by decide) (by decide) (by decide) (by decide)
    (by decide) (Prod.ext rfl (by decide))

end Sweeper
